import Mathlib

/-!
# FitCircleLMS: least-squares circle fit

A shallow embedding of `src/FitCircleLMS.cpp`, twice.  First the C++ `double`
is read as an element of a linearly ordered field `K` (exact arithmetic); the
theorems about `sqrt`, `cos` and `sin` are stated at `K = ℝ` with the functions
of the reals.  The calls into `<math.h>` are arguments of the definitions, so
that every definition stays executable (for instance over `ℚ`).  Then
`FitCircleLMS` is followed in IEEE 754 binary64 arithmetic (`FitCircleLMS_d`),
where rounding, overflow and NaN show.
-/

namespace FitCircle

open Matrix

/-- The point type `cv::Point2d`: two coordinates. -/
structure Point2d (K : Type) where
  x : K
  y : K
  deriving DecidableEq, Repr

section Defs

variable {K : Type} [LinearOrderedField K]

/-- The constant `PI = 3.141592653` of the source (not the number pi). -/
def PI : K := 3141592653 / 1000000000

/-- The constant `N = 360` of the source. -/
def N : Nat := 360

/-- The function `circlePoints`: the `N` points written to `points[0..N-1]`,
point `i` at angle `rad*i` with `rad = (PI/16)/N`. -/
def circlePoints (cos sin : K → K) (x0 y0 radius : K) : List (Point2d K) :=
  let range : K := PI / 16
  let rad : K := range / (N : K)
  (List.range N).map fun (i : Nat) =>
    { x := x0 + cos (rad * (i : K)) * radius
      y := y0 + sin (rad * (i : K)) * radius }

/-- The library call `cv::Mat::inv()` with its default method `DECOMP_LU`, in
exact arithmetic: the inverse of a non-singular matrix, the zero matrix for a
singular one. -/
def inv {m : Nat} (M : Matrix (Fin m) (Fin m) K) : Matrix (Fin m) (Fin m) K :=
  if M.det = 0 then 0 else M.det⁻¹ • M.adjugate

/-- The `N x 3` matrix `A` after the loop of `FitCircleLMS` (lines 69-75):
row `i` is `[2*points[i].x, 2*points[i].y, 1]`. -/
def matA (points : List (Point2d K)) : Matrix (Fin points.length) (Fin 3) K :=
  Matrix.of fun i j =>
    match j with
    | 0 => 2 * (points.get i).x
    | 1 => 2 * (points.get i).y
    | 2 => 1

/-- The `N x 1` matrix `Y` after the loop of `FitCircleLMS` (line 74):
entry `i` is `points[i].x^2 + points[i].y^2`. -/
def matY (points : List (Point2d K)) : Matrix (Fin points.length) (Fin 1) K :=
  Matrix.of fun i _ => (points.get i).x ^ 2 + (points.get i).y ^ 2

/-- The product `A.t()*A` of line 78, the matrix of the normal equations. -/
def AtA (points : List (Point2d K)) : Matrix (Fin 3) (Fin 3) K :=
  (matA points)ᵀ * matA points

/-- Line 78: `X = (A.t()*A).inv()*A.t()*Y`, the products taken left to right
as C++ does. -/
def solveX (points : List (Point2d K)) : Matrix (Fin 3) (Fin 1) K :=
  inv (AtA points) * (matA points)ᵀ * matY points

/-- Lines 81-93 of `FitCircleLMS`: what is written to `centerOut` and
`radiusOut` from the solved vector `X`. -/
def writeOut (sqrt : K → K) (X : Matrix (Fin 3) (Fin 1) K) : Point2d K × K :=
  let radiusOut : K := X 2 0 + X 0 0 ^ 2 + X 1 0 ^ 2
  if radiusOut < 0 then
    ({ x := 0, y := 0 }, 0)
  else
    ({ x := X 0 0, y := X 1 0 }, sqrt radiusOut)

/-- The function `FitCircleLMS(points, N, centerOut, radiusOut)`: the list is
`points[0..N-1]`, the result is the pair `(*centerOut, *radiusOut)` on
return. -/
def FitCircleLMS (sqrt : K → K) (points : List (Point2d K)) : Point2d K × K :=
  writeOut sqrt (solveX points)

/-- The function `main`: the values of `centerOut` and `radiusOut` printed by
the second `printf`. -/
def main (sqrt cos sin : K → K) : Point2d K × K :=
  let x0 : K := 500
  let y0 : K := 500
  let radius : K := 300
  FitCircleLMS sqrt (circlePoints cos sin x0 y0 radius)

/-- The point `p` lies on the circle of center `(a, b)` and radius `R`. -/
def OnCircle (a b R : K) (p : Point2d K) : Prop :=
  (p.x - a) ^ 2 + (p.y - b) ^ 2 = R ^ 2

/-- Twice the signed area of the triangle `p q r`; it is zero exactly when
the three points lie on a common line. -/
def cross (p q r : Point2d K) : K :=
  (q.x - p.x) * (r.y - p.y) - (r.x - p.x) * (q.y - p.y)

/-- The sequence contains three points that are not on a common line. -/
def HasNonCollinearTriple (points : List (Point2d K)) : Prop :=
  ∃ p ∈ points, ∃ q ∈ points, ∃ r ∈ points, cross p q r ≠ 0

/-- All points of the sequence lie on one line `l*x + m*y + c = 0`. -/
def Collinear (points : List (Point2d K)) : Prop :=
  ∃ l m c : K, (l ≠ 0 ∨ m ≠ 0) ∧ ∀ p ∈ points, l * p.x + m * p.y + c = 0

/-- The squared Euclidean norm of a column. -/
def sqNorm {n : Nat} (V : Matrix (Fin n) (Fin 1) K) : K :=
  ∑ i, V i 0 ^ 2

/-- Row of `A` contributed by one point: `[2*x, 2*y, 1]`. -/
def rowA (p : Point2d K) : Fin 3 → K :=
  ![2 * p.x, 2 * p.y, 1]

/-- The failure kinds named by the specification. -/
inductive FitError where
  | InsufficientPoints
  | DegenerateFit
  deriving DecidableEq, Repr

/-- The outcome of a call in the vocabulary of the specification
(`fit_circle(points) -> FitResult`).  `FitCircleLMS` returns `void`, has no
failure path and writes `*centerOut` and `*radiusOut` on every path, so every
call ends as a circle outcome carrying the two written values. -/
def fit_circle (sqrt : K → K) (points : List (Point2d K)) :
    Except FitError (Point2d K × K) :=
  Except.ok (FitCircleLMS sqrt points)

/-- The point `p` shifted by the offset `(dx, dy)`. -/
def shiftBy (dx dy : K) (p : Point2d K) : Point2d K :=
  { x := p.x + dx, y := p.y + dy }

end Defs

/-! ## The same program in `double` arithmetic

The definitions above read `double` as an exact field.  The definitions below
follow the program in IEEE 754 binary64 arithmetic, every operation rounded to
nearest, ties to even, with overflow to an infinity and NaN.  The calls into
OpenCV are read as OpenCV computes them on a matrix of `double`: `cv::gemm`
accumulates each entry in the order of the summation index, and a 3 x 3
`cv::Mat::inv()` multiplies the cofactors by `1./det3` when `det3 != 0.`. -/

/-- A value of the C++ type `double` (IEEE 754 binary64), up to the sign of a
zero: not-a-number, an infinity, or the finite number `m * 2^e`.  The
operations below return a finite number in its IEEE form: `|m| < 2^53`,
`-1074 ≤ e ≤ 971`, and `2^52 ≤ |m|` unless `e = -1074`. -/
inductive Double where
  | nan : Double
  | inf (neg : Bool) : Double
  | fin (m : Int) (e : Int) : Double
  deriving DecidableEq, Repr

namespace Double

/-- Search of the position of the leading bit: the largest `k` below `lo + 2^f`
with `2^k ≤ n`, for `2^lo ≤ n`. -/
def log2From (n : Nat) : Nat → Nat → Nat
  | 0, lo => lo
  | f + 1, lo => if 2 ^ (lo + 2 ^ f) ≤ n then log2From n f (lo + 2 ^ f) else log2From n f lo

/-- Position of the leading bit of `n`, for `0 < n < 2^4096`. -/
def ilog2 (n : Nat) : Nat := log2From n 12 0

/-- The quotient `n / 2^s` rounded to the nearest integer, ties to even. -/
def rne (n s : Nat) : Nat :=
  let q := n / 2 ^ s
  let r := n % 2 ^ s
  if 2 * r < 2 ^ s then q
  else if 2 * r = 2 ^ s then (if q % 2 = 0 then q else q + 1)
  else q + 1

/-- Rounding to nearest, ties to even, of the exact value `± n * 2^e` to a
`double`: 53 significant bits, least exponent `-1074` (subnormal numbers),
overflow to an infinity from `2^1024` on. -/
def round (neg : Bool) (n : Nat) (e : Int) : Double :=
  if n = 0 then fin 0 (-1074)
  else
    let e1 : Int := max (e + ((ilog2 n + 1 : Nat) : Int) - 53) (-1074)
    let q : Nat := if e1 ≤ e then n * 2 ^ (e - e1).toNat else rne n (e1 - e).toNat
    let q2 : Nat := if q = 2 ^ 53 then 2 ^ 52 else q
    let e2 : Int := if q = 2 ^ 53 then e1 + 1 else e1
    if 971 < e2 then inf neg
    else fin (if neg then -(q2 : Int) else (q2 : Int)) e2

/-- The value `0.0`. -/
def zero : Double := fin 0 (-1074)

/-- The value `1.0`. -/
def one : Double := fin (2 ^ 52) (-52)

/-- The value `2.0`. -/
def two : Double := fin (2 ^ 52) (-51)

/-- Conversion of an integer to `double`. -/
def ofInt (z : Int) : Double := round (decide (z < 0)) z.natAbs 0

/-- Unary minus. -/
def neg : Double → Double
  | nan => nan
  | inf s => inf (!s)
  | fin m e => fin (-m) e

/-- Addition of `double`: the exact sum, rounded. -/
def add : Double → Double → Double
  | fin m1 e1, fin m2 e2 =>
    let e := min e1 e2
    let m : Int := m1 * 2 ^ (e1 - e).toNat + m2 * 2 ^ (e2 - e).toNat
    round (decide (m < 0)) m.natAbs e
  | inf a, inf b => if a = b then inf a else nan
  | inf a, fin _ _ => inf a
  | fin _ _, inf b => inf b
  | _, _ => nan

/-- Subtraction of `double`. -/
def sub (a b : Double) : Double := add a (neg b)

/-- Multiplication of `double`: the exact product, rounded. -/
def mul : Double → Double → Double
  | fin m1 e1, fin m2 e2 => round (decide (m1 * m2 < 0)) (m1 * m2).natAbs (e1 + e2)
  | inf a, inf b => inf (xor a b)
  | inf a, fin m _ => if m = 0 then nan else inf (xor a (decide (m < 0)))
  | fin m _, inf b => if m = 0 then nan else inf (xor (decide (m < 0)) b)
  | _, _ => nan

/-- Division of `double`: the exact quotient, rounded (a sticky bit stands
for the remainder). -/
def div : Double → Double → Double
  | fin m1 e1, fin m2 e2 =>
    if m2 = 0 then (if m1 = 0 then nan else inf (decide (m1 < 0)))
    else
      let k : Nat := ilog2 m2.natAbs + 56
      let num : Nat := m1.natAbs * 2 ^ k
      let q : Nat := num / m2.natAbs
      let sticky : Nat := if num % m2.natAbs = 0 then 0 else 1
      round (xor (decide (m1 < 0)) (decide (m2 < 0))) (2 * q + sticky)
        (e1 - e2 - (k : Int) - 1)
  | fin _ _, inf _ => zero
  | inf a, fin m _ => inf (xor a (decide (m < 0)))
  | _, _ => nan

/-- Bit by bit search of the integer square root: `r` grows by `2^k` while
its square stays below `n`. -/
def isqrtFrom (n : Nat) : Nat → Nat → Nat
  | 0, r => r
  | k + 1, r =>
    if (r + 2 ^ k) * (r + 2 ^ k) ≤ n then isqrtFrom n k (r + 2 ^ k) else isqrtFrom n k r

/-- The integer square root of `n`. -/
def isqrt (n : Nat) : Nat := isqrtFrom n (ilog2 n / 2 + 1) 0

/-- The function `sqrt` of `<math.h>`: the exact square root, rounded; NaN for
a negative number. -/
def sqrt : Double → Double
  | nan => nan
  | inf s => if s then nan else inf false
  | fin m e =>
    if m < 0 then nan
    else
      let b : Nat := (e % 2).toNat
      let h : Int := (e - (b : Int)) / 2
      let n2 : Nat := m.natAbs * 2 ^ b * 2 ^ 128
      let s : Nat := isqrt n2
      let sticky : Nat := if s * s = n2 then 0 else 1
      round false (2 * s + sticky) (h - 64 - 1)

/-- The comparison `a < b` of `double`: false when a side is NaN. -/
def lt : Double → Double → Bool
  | fin m1 e1, fin m2 e2 =>
    let e := min e1 e2
    decide (m1 * 2 ^ (e1 - e).toNat < m2 * 2 ^ (e2 - e).toNat)
  | inf a, inf b => a && !b
  | inf a, fin _ _ => a
  | fin _ _, inf b => !b
  | _, _ => false

/-- The comparison `a != 0.` of `double`: true for NaN. -/
def neZero : Double → Bool
  | fin m _ => decide (m ≠ 0)
  | _ => true

/-- The rational number a finite `double` stands for (`0` for NaN and the
infinities). -/
def toRat : Double → ℚ
  | fin m e => (m : ℚ) * (2 : ℚ) ^ e
  | _ => 0

end Double

/-- Entry `(i, j)` of a matrix of `double` kept as the list of its rows. -/
def entry (M : List (List Double)) (i j : Nat) : Double :=
  (M.getD i []).getD j Double.zero

/-- The accumulation `s = 0; s += u[k]*v[k]` of `cv::gemm` over one row and
one column. -/
def dot (u v : List Double) : Double :=
  (List.zipWith Double.mul u v).foldl Double.add Double.zero

/-- The transposed matrix `M.t()` of a matrix with `n` columns. -/
def transposeD (n : Nat) (M : List (List Double)) : List (List Double) :=
  (List.range n).map fun j => M.map fun r => r.getD j Double.zero

/-- The product `M1 * M2` of `cv::Mat` (`cv::gemm`), `M2` having `n` columns:
each entry is accumulated in the order of the summation index. -/
def gemm (n : Nat) (M1 M2 : List (List Double)) : List (List Double) :=
  M1.map fun r => (transposeD n M2).map fun c => dot r c

/-- The macro `det3` of OpenCV on a 3 x 3 matrix of `double`. -/
def det3 (S : List (List Double)) : Double :=
  Double.add
    (Double.sub
      (Double.mul (entry S 0 0)
        (Double.sub (Double.mul (entry S 1 1) (entry S 2 2))
          (Double.mul (entry S 1 2) (entry S 2 1))))
      (Double.mul (entry S 0 1)
        (Double.sub (Double.mul (entry S 1 0) (entry S 2 2))
          (Double.mul (entry S 1 2) (entry S 2 0)))))
    (Double.mul (entry S 0 2)
      (Double.sub (Double.mul (entry S 1 0) (entry S 2 1))
        (Double.mul (entry S 1 1) (entry S 2 0))))

/-- One entry of the inverse: `(a*b - c*e) * d`. -/
def cof (a b c e d : Double) : Double :=
  Double.mul (Double.sub (Double.mul a b) (Double.mul c e)) d

/-- The call `cv::Mat::inv()` (`DECOMP_LU`) on a 3 x 3 matrix of `double`: the
cofactors times `1./det3` when `det3 != 0.`, the zero matrix otherwise. -/
def inv3 (S : List (List Double)) : List (List Double) :=
  if Double.neZero (det3 S) then
    let d := Double.div Double.one (det3 S)
    [[cof (entry S 1 1) (entry S 2 2) (entry S 1 2) (entry S 2 1) d,
      cof (entry S 0 2) (entry S 2 1) (entry S 0 1) (entry S 2 2) d,
      cof (entry S 0 1) (entry S 1 2) (entry S 0 2) (entry S 1 1) d],
     [cof (entry S 1 2) (entry S 2 0) (entry S 1 0) (entry S 2 2) d,
      cof (entry S 0 0) (entry S 2 2) (entry S 0 2) (entry S 2 0) d,
      cof (entry S 0 2) (entry S 1 0) (entry S 0 0) (entry S 1 2) d],
     [cof (entry S 1 0) (entry S 2 1) (entry S 1 1) (entry S 2 0) d,
      cof (entry S 0 1) (entry S 2 0) (entry S 0 0) (entry S 2 1) d,
      cof (entry S 0 0) (entry S 1 1) (entry S 0 1) (entry S 1 0) d]]
  else
    [[Double.zero, Double.zero, Double.zero], [Double.zero, Double.zero, Double.zero],
     [Double.zero, Double.zero, Double.zero]]

/-- The matrix `A` of `FitCircleLMS` in `double` (lines 69-73). -/
def matA_d (points : List (Point2d Double)) : List (List Double) :=
  points.map fun p => [Double.mul Double.two p.x, Double.mul Double.two p.y, Double.one]

/-- The matrix `Y` of `FitCircleLMS` in `double` (line 74); `pow(x, 2)` is the
rounded square. -/
def matY_d (points : List (Point2d Double)) : List (List Double) :=
  points.map fun p => [Double.add (Double.mul p.x p.x) (Double.mul p.y p.y)]

/-- The product `A.t()*A` of line 78 in `double`. -/
def AtA_d (points : List (Point2d Double)) : List (List Double) :=
  gemm 3 (transposeD 3 (matA_d points)) (matA_d points)

/-- Line 78 in `double`: `X = (A.t()*A).inv()*A.t()*Y`, left to right. -/
def solveX_d (points : List (Point2d Double)) : List (List Double) :=
  gemm 1 (gemm points.length (inv3 (AtA_d points)) (transposeD 3 (matA_d points)))
    (matY_d points)

/-- Lines 81-93 in `double`. -/
def writeOut_d (X : List (List Double)) : Point2d Double × Double :=
  let radiusOut : Double :=
    Double.add (Double.add (entry X 2 0) (Double.mul (entry X 0 0) (entry X 0 0)))
      (Double.mul (entry X 1 0) (entry X 1 0))
  if Double.lt radiusOut Double.zero then
    ({ x := Double.zero, y := Double.zero }, Double.zero)
  else
    ({ x := entry X 0 0, y := entry X 1 0 }, Double.sqrt radiusOut)

/-- The function `FitCircleLMS` in `double` arithmetic: the pair
`(*centerOut, *radiusOut)` on return. -/
def FitCircleLMS_d (points : List (Point2d Double)) : Point2d Double × Double :=
  writeOut_d (solveX_d points)

/-- The point with the rational coordinates two finite `double` stand for. -/
def toRatPoint (p : Point2d Double) : Point2d ℚ :=
  { x := Double.toRat p.x, y := Double.toRat p.y }

/-! ## The inverse and the normal equations -/

section NormalEquations
variable {K : Type} [LinearOrderedField K]

theorem inv_of_det_eq_zero {m : Nat} (M : Matrix (Fin m) (Fin m) K) (h : M.det = 0) :
    inv M = 0 := by
  simp [inv, h]

theorem inv_mul_of_det_ne_zero {m : Nat} (M : Matrix (Fin m) (Fin m) K) (h : M.det ≠ 0) :
    inv M * M = 1 := by
  simp only [inv, h, if_false, Matrix.smul_mul, Matrix.adjugate_mul, smul_smul]
  rw [inv_mul_cancel₀ h, one_smul]

theorem mul_inv_of_det_ne_zero {m : Nat} (M : Matrix (Fin m) (Fin m) K) (h : M.det ≠ 0) :
    M * inv M = 1 := by
  simp only [inv, h, if_false, Matrix.mul_smul, Matrix.mul_adjugate, smul_smul]
  rw [inv_mul_cancel₀ h, one_smul]

theorem solveX_of_det_eq_zero (points : List (Point2d K)) (h : (AtA points).det = 0) :
    solveX points = 0 := by
  simp [solveX, inv_of_det_eq_zero _ h]

theorem normal_equations (points : List (Point2d K)) (h : (AtA points).det ≠ 0) :
    AtA points * solveX points = (matA points)ᵀ * matY points := by
  unfold solveX
  rw [Matrix.mul_assoc, ← Matrix.mul_assoc (AtA points), mul_inv_of_det_ne_zero _ h,
    Matrix.one_mul]

theorem solveX_unique (points : List (Point2d K)) (h : (AtA points).det ≠ 0)
    (X : Matrix (Fin 3) (Fin 1) K) (hX : AtA points * X = (matA points)ᵀ * matY points) :
    solveX points = X := by
  unfold solveX
  rw [Matrix.mul_assoc, ← hX, ← Matrix.mul_assoc, inv_mul_of_det_ne_zero _ h, Matrix.one_mul]

theorem matA_mul_apply (points : List (Point2d K)) (X : Matrix (Fin 3) (Fin 1) K)
    (i : Fin points.length) :
    (matA points * X) i 0
      = 2 * (points.get i).x * X 0 0 + 2 * (points.get i).y * X 1 0 + X 2 0 := by
  simp [Matrix.mul_apply, Fin.sum_univ_three, matA]

theorem matA_mulVec_apply (points : List (Point2d K)) (v : Fin 3 → K)
    (i : Fin points.length) :
    (matA points *ᵥ v) i
      = 2 * (points.get i).x * v 0 + 2 * (points.get i).y * v 1 + v 2 := by
  simp [Matrix.mulVec, Matrix.dotProduct, Fin.sum_univ_three, matA]

theorem AtA_mulVec_eq_zero_iff (points : List (Point2d K)) (v : Fin 3 → K) :
    AtA points *ᵥ v = 0 ↔ matA points *ᵥ v = 0 := by
  constructor
  · intro h
    have h1 : (matA points *ᵥ v) ⬝ᵥ (matA points *ᵥ v) = 0 := by
      have h2 : v ⬝ᵥ (AtA points *ᵥ v) = 0 := by rw [h]; simp
      rw [AtA, ← Matrix.mulVec_mulVec, Matrix.dotProduct_mulVec, Matrix.vecMul_transpose] at h2
      exact h2
    exact Matrix.dotProduct_self_eq_zero.1 h1
  · intro h
    rw [AtA, ← Matrix.mulVec_mulVec, h, Matrix.mulVec_zero]

theorem det_AtA_eq_zero_iff (points : List (Point2d K)) :
    (AtA points).det = 0 ↔
      ∃ v : Fin 3 → K, v ≠ 0 ∧ ∀ p ∈ points, 2 * p.x * v 0 + 2 * p.y * v 1 + v 2 = 0 := by
  rw [← Matrix.exists_mulVec_eq_zero_iff]
  constructor
  · rintro ⟨v, hv, h⟩
    refine ⟨v, hv, ?_⟩
    intro p hp
    obtain ⟨i, rfl⟩ := List.mem_iff_get.1 hp
    have := congrFun ((AtA_mulVec_eq_zero_iff points v).1 h) i
    rw [matA_mulVec_apply] at this
    simpa using this
  · rintro ⟨v, hv, h⟩
    refine ⟨v, hv, (AtA_mulVec_eq_zero_iff points v).2 ?_⟩
    funext i
    rw [matA_mulVec_apply]
    simpa using h _ (List.get_mem points i.1 i.2)

end NormalEquations

/-! ## Lines, circles and the kernel of the normal matrix -/

section Geometry
variable {K : Type} [LinearOrderedField K]

theorem eq_of_same_side (l m c : K) (hlm : l ≠ 0 ∨ m ≠ 0) (a b : K) (p q : Point2d K)
    (lp : l * p.x + m * p.y + c = 0) (lq : l * q.x + m * q.y + c = 0)
    (hs : l * (p.y - b) - m * (p.x - a) = l * (q.y - b) - m * (q.x - a)) : p = q := by
  have hn : l ^ 2 + m ^ 2 ≠ 0 := by
    rcases hlm with h | h
    · have h1 : 0 < l ^ 2 := by positivity
      have h2 := sq_nonneg m
      exact ne_of_gt (by linarith)
    · have h1 : 0 < m ^ 2 := by positivity
      have h2 := sq_nonneg l
      exact ne_of_gt (by linarith)
  have hx : (l ^ 2 + m ^ 2) * p.x = (l ^ 2 + m ^ 2) * q.x := by
    linear_combination l * lp - l * lq - m * hs
  have hy : (l ^ 2 + m ^ 2) * p.y = (l ^ 2 + m ^ 2) * q.y := by
    linear_combination m * lp - m * lq + l * hs
  cases p; cases q
  simp only [Point2d.mk.injEq]
  exact ⟨mul_left_cancel₀ hn hx, mul_left_cancel₀ hn hy⟩

theorem side_sq (l m c a b R : K) (p : Point2d K) (hc : OnCircle a b R p)
    (lp : l * p.x + m * p.y + c = 0) :
    (l * (p.y - b) - m * (p.x - a)) ^ 2
      = (l ^ 2 + m ^ 2) * R ^ 2 - (l * a + m * b + c) ^ 2 := by
  unfold OnCircle at hc
  linear_combination (l ^ 2 + m ^ 2) * hc
    - (l * (p.x - a) + m * (p.y - b) - (l * a + m * b + c)) * lp

/-- A line meets a circle in at most two points. -/
theorem line_circle (l m c : K) (hlm : l ≠ 0 ∨ m ≠ 0) (a b R : K) (p q r : Point2d K)
    (hp : OnCircle a b R p) (hq : OnCircle a b R q) (hr : OnCircle a b R r)
    (lp : l * p.x + m * p.y + c = 0) (lq : l * q.x + m * q.y + c = 0)
    (lr : l * r.x + m * r.y + c = 0) : p = q ∨ p = r ∨ q = r := by
  have sp := side_sq l m c a b R p hp lp
  have sq := side_sq l m c a b R q hq lq
  have sr := side_sq l m c a b R r hr lr
  rcases sq_eq_sq_iff_eq_or_eq_neg.1 (sp.trans sq.symm) with h1 | h1
  · exact Or.inl (eq_of_same_side l m c hlm a b p q lp lq h1)
  · rcases sq_eq_sq_iff_eq_or_eq_neg.1 (sp.trans sr.symm) with h2 | h2
    · exact Or.inr (Or.inl (eq_of_same_side l m c hlm a b p r lp lr h2))
    · refine Or.inr (Or.inr (eq_of_same_side l m c hlm a b q r lq lr ?_))
      linear_combination h1 - h2

theorem det_AtA_ne_zero_of_circle (a b R : K) (points : List (Point2d K))
    (hon : ∀ p ∈ points, OnCircle a b R p) (p q r : Point2d K)
    (hp : p ∈ points) (hq : q ∈ points) (hr : r ∈ points)
    (hpq : p ≠ q) (hpr : p ≠ r) (hqr : q ≠ r) : (AtA points).det ≠ 0 := by
  intro hdet
  obtain ⟨v, hv, h⟩ := (det_AtA_eq_zero_iff points).1 hdet
  by_cases hlm : 2 * v 0 ≠ 0 ∨ 2 * v 1 ≠ 0
  · have e : ∀ s ∈ points, (2 * v 0) * s.x + (2 * v 1) * s.y + v 2 = 0 := by
      intro s hs
      linear_combination h s hs
    rcases line_circle _ _ _ hlm a b R p q r (hon p hp) (hon q hq) (hon r hr)
      (e p hp) (e q hq) (e r hr) with h1 | h1 | h1
    · exact hpq h1
    · exact hpr h1
    · exact hqr h1
  · push_neg at hlm
    have h0 : v 0 = 0 := by simpa using hlm.1
    have h1 : v 1 = 0 := by simpa using hlm.2
    have h2 : v 2 = 0 := by simpa [h0, h1] using h p hp
    apply hv
    funext i
    fin_cases i <;> simp [h0, h1, h2]

theorem det_AtA_ne_zero_of_triple (points : List (Point2d K))
    (h : HasNonCollinearTriple points) : (AtA points).det ≠ 0 := by
  obtain ⟨p, hp, q, hq, r, hr, hc⟩ := h
  intro hdet
  obtain ⟨v, hv, h⟩ := (det_AtA_eq_zero_iff points).1 hdet
  have ep := h p hp
  have eq := h q hq
  have er := h r hr
  unfold cross at hc
  have h0 : ((q.x - p.x) * (r.y - p.y) - (r.x - p.x) * (q.y - p.y)) * v 0 = 0 := by
    linear_combination (r.y - p.y) / 2 * (eq - ep) - (q.y - p.y) / 2 * (er - ep)
  have h1 : ((q.x - p.x) * (r.y - p.y) - (r.x - p.x) * (q.y - p.y)) * v 1 = 0 := by
    linear_combination (q.x - p.x) / 2 * (er - ep) - (r.x - p.x) / 2 * (eq - ep)
  have h0 : v 0 = 0 := by simpa [hc] using h0
  have h1 : v 1 = 0 := by simpa [hc] using h1
  have h2 : v 2 = 0 := by simpa [h0, h1] using ep
  apply hv
  funext i
  fin_cases i <;> simp [h0, h1, h2]

theorem det_AtA_eq_zero_of_collinear (points : List (Point2d K))
    (h : Collinear points) : (AtA points).det = 0 := by
  obtain ⟨l, m, c, hlm, h⟩ := h
  refine (det_AtA_eq_zero_iff points).2 ⟨![l, m, 2 * c], ?_, ?_⟩
  · intro hv
    have h0 := congrFun hv 0
    have h1 := congrFun hv 1
    simp at h0 h1
    rcases hlm with h | h
    · exact h h0
    · exact h h1
  · intro p hp
    simp
    linear_combination 2 * h p hp

theorem collinear_of_det_AtA_eq_zero (points : List (Point2d K))
    (h : (AtA points).det = 0) : Collinear points := by
  obtain ⟨v, hv, h⟩ := (det_AtA_eq_zero_iff points).1 h
  by_cases hlm : 2 * v 0 ≠ 0 ∨ 2 * v 1 ≠ 0
  · exact ⟨2 * v 0, 2 * v 1, v 2, hlm, fun p hp => by linear_combination h p hp⟩
  · push_neg at hlm
    have h0 : v 0 = 0 := by simpa using hlm.1
    have h1 : v 1 = 0 := by simpa using hlm.2
    cases points with
    | nil => exact ⟨1, 0, 0, Or.inl one_ne_zero, by simp⟩
    | cons p t =>
      exfalso
      have h2 : v 2 = 0 := by simpa [h0, h1] using h p (List.mem_cons_self _ _)
      apply hv
      funext i
      fin_cases i <;> simp [h0, h1, h2]

end Geometry

/-! ## Points of a circle are fitted exactly -/

section ExactFit
variable {K : Type} [LinearOrderedField K]

theorem solveX_of_circle (a b R : K) (points : List (Point2d K))
    (hon : ∀ p ∈ points, OnCircle a b R p) (hdet : (AtA points).det ≠ 0) :
    solveX points = !![a; b; R ^ 2 - a ^ 2 - b ^ 2] := by
  apply solveX_unique points hdet
  have hA : matA points * !![a; b; R ^ 2 - a ^ 2 - b ^ 2] = matY points := by
    ext i j
    have hj : j = 0 := Subsingleton.elim _ _
    subst hj
    rw [matA_mul_apply]
    have h := hon _ (List.get_mem points i.1 i.2)
    unfold OnCircle at h
    simp [matY]
    linear_combination -h
  rw [AtA, Matrix.mul_assoc, hA]

theorem writeOut_of_nonneg (sqrt : K → K) (X : Matrix (Fin 3) (Fin 1) K)
    (h : 0 ≤ X 2 0 + X 0 0 ^ 2 + X 1 0 ^ 2) :
    writeOut sqrt X = ({ x := X 0 0, y := X 1 0 }, sqrt (X 2 0 + X 0 0 ^ 2 + X 1 0 ^ 2)) := by
  simp [writeOut, not_lt.2 h]

theorem fit_of_circle (a b R : ℝ) (hR : 0 < R) (points : List (Point2d ℝ))
    (hon : ∀ p ∈ points, OnCircle a b R p)
    (h3 : ∃ p ∈ points, ∃ q ∈ points, ∃ r ∈ points, p ≠ q ∧ p ≠ r ∧ q ≠ r) :
    FitCircleLMS Real.sqrt points = ({ x := a, y := b }, R) := by
  obtain ⟨p, hp, q, hq, r, hr, hpq, hpr, hqr⟩ := h3
  have hdet := det_AtA_ne_zero_of_circle a b R points hon p q r hp hq hr hpq hpr hqr
  have hX := solveX_of_circle a b R points hon hdet
  have e : (!![a; b; R ^ 2 - a ^ 2 - b ^ 2] : Matrix (Fin 3) (Fin 1) ℝ) 2 0
      + (!![a; b; R ^ 2 - a ^ 2 - b ^ 2] : Matrix (Fin 3) (Fin 1) ℝ) 0 0 ^ 2
      + (!![a; b; R ^ 2 - a ^ 2 - b ^ 2] : Matrix (Fin 3) (Fin 1) ℝ) 1 0 ^ 2 = R ^ 2 := by
    simp
    ring
  rw [FitCircleLMS, hX, writeOut_of_nonneg _ _ (by rw [e]; positivity), e,
    Real.sqrt_sq hR.le]
  simp

theorem circlePoints_onCircle (x0 y0 radius : ℝ) :
    ∀ p ∈ circlePoints Real.cos Real.sin x0 y0 radius, OnCircle x0 y0 radius p := by
  intro p hp
  simp only [circlePoints, List.mem_map] at hp
  obtain ⟨i, -, rfl⟩ := hp
  unfold OnCircle
  simp only [add_sub_cancel_left]
  have := Real.cos_sq_add_sin_sq (PI / 16 / (N : ℝ) * (i : ℝ))
  linear_combination radius ^ 2 * this

theorem circlePoints_mem (x0 y0 radius : ℝ) (i : Nat) (hi : i < N) :
    ({ x := x0 + Real.cos (PI / 16 / (N : ℝ) * (i : ℝ)) * radius
       y := y0 + Real.sin (PI / 16 / (N : ℝ) * (i : ℝ)) * radius } : Point2d ℝ)
      ∈ circlePoints Real.cos Real.sin x0 y0 radius := by
  unfold circlePoints
  exact List.mem_map.2 ⟨i, List.mem_range.2 hi, rfl⟩

theorem circlePoints_ne (x0 y0 radius : ℝ) (hr : 0 < radius) (i j : Nat) (hij : i < j)
    (hj : j < N) :
    ({ x := x0 + Real.cos (PI / 16 / (N : ℝ) * (i : ℝ)) * radius
       y := y0 + Real.sin (PI / 16 / (N : ℝ) * (i : ℝ)) * radius } : Point2d ℝ)
      ≠ { x := x0 + Real.cos (PI / 16 / (N : ℝ) * (j : ℝ)) * radius
          y := y0 + Real.sin (PI / 16 / (N : ℝ) * (j : ℝ)) * radius } := by
  intro h
  have hx := congrArg Point2d.x h
  simp only [add_right_inj] at hx
  have hc := mul_right_cancel₀ hr.ne.symm hx
  have hrad : (0 : ℝ) < PI / 16 / (N : ℝ) := by
    unfold PI N; norm_num
  have hjr : (j : ℝ) < 360 := by
    have : j < 360 := hj
    exact_mod_cast this
  have hij2 : (i : ℝ) < (j : ℝ) := by exact_mod_cast hij
  have hi0 : (0 : ℝ) ≤ (i : ℝ) := Nat.cast_nonneg i
  have hle : PI / 16 / (N : ℝ) * (j : ℝ) ≤ Real.pi := by
    have h3 := Real.pi_gt_three
    have : PI / 16 / (N : ℝ) * (j : ℝ) ≤ PI / 16 / (N : ℝ) * 360 :=
      mul_le_mul_of_nonneg_left hjr.le hrad.le
    have e : (PI : ℝ) / 16 / (N : ℝ) * 360 = 3141592653 / 16000000000 := by
      unfold PI N; norm_num
    rw [e] at this
    linarith
  have hlt := Real.strictAntiOn_cos
    (Set.mem_Icc.2 ⟨mul_nonneg hrad.le hi0,
      le_trans (mul_le_mul_of_nonneg_left hij2.le hrad.le) hle⟩)
    (Set.mem_Icc.2 ⟨mul_nonneg hrad.le (hi0.trans hij2.le), hle⟩)
    (mul_lt_mul_of_pos_left hij2 hrad)
  exact (ne_of_gt hlt) hc

theorem fit_circlePoints (x0 y0 radius : ℝ) (h : 0 < radius) :
    FitCircleLMS Real.sqrt (circlePoints Real.cos Real.sin x0 y0 radius)
      = ({ x := x0, y := y0 }, radius) := by
  apply fit_of_circle x0 y0 radius h _ (circlePoints_onCircle x0 y0 radius)
  exact ⟨_, circlePoints_mem x0 y0 radius 0 (by decide),
    _, circlePoints_mem x0 y0 radius 1 (by decide),
    _, circlePoints_mem x0 y0 radius 2 (by decide),
    circlePoints_ne x0 y0 radius h 0 1 (by decide) (by decide),
    circlePoints_ne x0 y0 radius h 0 2 (by decide) (by decide),
    circlePoints_ne x0 y0 radius h 1 2 (by decide) (by decide)⟩

end ExactFit

/-! ## Sums over the points, permutations, residuals -/

section Sums
variable {K : Type} [LinearOrderedField K]

theorem matA_apply (points : List (Point2d K)) (i : Fin points.length) (j : Fin 3) :
    matA points i j = rowA (points.get i) j := by
  fin_cases j <;> rfl

theorem AtA_apply (points : List (Point2d K)) (j k : Fin 3) :
    AtA points j k = (points.map fun p => rowA p j * rowA p k).sum := by
  rw [← Fin.sum_univ_get']
  simp [AtA, Matrix.mul_apply, matA_apply]

theorem AtY_apply (points : List (Point2d K)) (j : Fin 3) (k : Fin 1) :
    ((matA points)ᵀ * matY points) j k
      = (points.map fun p => rowA p j * (p.x ^ 2 + p.y ^ 2)).sum := by
  rw [← Fin.sum_univ_get']
  simp [Matrix.mul_apply, matA_apply, matY]

theorem solveX_perm (l₁ l₂ : List (Point2d K)) (h : l₁.Perm l₂) :
    solveX l₁ = solveX l₂ := by
  have hA : AtA l₁ = AtA l₂ := by
    ext j k
    rw [AtA_apply, AtA_apply]
    exact (h.map _).sum_eq
  have hY : (matA l₁)ᵀ * matY l₁ = (matA l₂)ᵀ * matY l₂ := by
    ext j k
    rw [AtY_apply, AtY_apply]
    exact (h.map _).sum_eq
  unfold solveX
  rw [Matrix.mul_assoc, Matrix.mul_assoc, hA, hY]

theorem sqNorm_eq {n : Nat} (V : Matrix (Fin n) (Fin 1) K) : sqNorm V = (Vᵀ * V) 0 0 := by
  simp [sqNorm, Matrix.mul_apply, sq]

theorem sqNorm_nonneg {n : Nat} (V : Matrix (Fin n) (Fin 1) K) : 0 ≤ sqNorm V :=
  Finset.sum_nonneg fun _ _ => sq_nonneg _

theorem sqNorm_eq_zero {n : Nat} (V : Matrix (Fin n) (Fin 1) K) (h : sqNorm V = 0) :
    V = 0 := by
  ext i j
  have hj : j = 0 := Subsingleton.elim _ _
  subst hj
  have := (Finset.sum_eq_zero_iff_of_nonneg (fun i _ => sq_nonneg (V i 0))).1 h i
    (Finset.mem_univ i)
  simpa using this

theorem residual_orthogonal (points : List (Point2d K)) (h : (AtA points).det ≠ 0) :
    (matA points)ᵀ * (matA points * solveX points - matY points) = 0 := by
  rw [Matrix.mul_sub, ← Matrix.mul_assoc, ← normal_equations points h, AtA, sub_self]

theorem sqNorm_residual (points : List (Point2d K)) (h : (AtA points).det ≠ 0)
    (X : Matrix (Fin 3) (Fin 1) K) :
    sqNorm (matA points * X - matY points)
      = sqNorm (matA points * solveX points - matY points)
        + sqNorm (matA points * (X - solveX points)) := by
  have ho := residual_orthogonal points h
  have ho2 : (matA points * solveX points - matY points)ᵀ * matA points = 0 := by
    have := congrArg Matrix.transpose ho
    simpa [Matrix.transpose_mul] using this
  have e : matA points * X - matY points
      = (matA points * solveX points - matY points) + matA points * (X - solveX points) := by
    rw [Matrix.mul_sub]; abel
  rw [sqNorm_eq, sqNorm_eq, sqNorm_eq, e]
  generalize matA points * solveX points - matY points = E at ho ho2
  rw [Matrix.transpose_add, Matrix.add_mul, Matrix.mul_add, Matrix.mul_add,
    Matrix.transpose_mul, Matrix.mul_assoc _ (matA points)ᵀ E, ho, Matrix.mul_zero,
    ← Matrix.mul_assoc Eᵀ, ho2, Matrix.zero_mul]
  simp

end Sums

/-! ## The radius squared is a mean of squared distances -/

section RadiusSq
variable {K : Type} [LinearOrderedField K]

theorem sum_sq_dist (points : List (Point2d K)) (h : (AtA points).det ≠ 0) :
    ∑ i : Fin points.length,
        (((points.get i).x - solveX points 0 0) ^ 2 + ((points.get i).y - solveX points 1 0) ^ 2)
      = (points.length : K)
          * (solveX points 2 0 + solveX points 0 0 ^ 2 + solveX points 1 0 ^ 2) := by
  have ho := congrFun (congrFun (residual_orthogonal points h) 2) 0
  have e1 : ∀ i : Fin points.length, matA points i 2 = 1 := fun i => rfl
  rw [Matrix.mul_apply] at ho
  simp only [Matrix.transpose_apply, Matrix.sub_apply, Matrix.zero_apply, matA_mul_apply,
    e1, one_mul, matY, Matrix.of_apply] at ho
  have e2 : ∀ i : Fin points.length,
      ((points.get i).x - solveX points 0 0) ^ 2 + ((points.get i).y - solveX points 1 0) ^ 2
        = (solveX points 2 0 + solveX points 0 0 ^ 2 + solveX points 1 0 ^ 2)
          - (2 * (points.get i).x * solveX points 0 0 + 2 * (points.get i).y * solveX points 1 0
              + solveX points 2 0 - ((points.get i).x ^ 2 + (points.get i).y ^ 2)) := by
    intro i; ring
  rw [Finset.sum_congr rfl fun i _ => e2 i, Finset.sum_sub_distrib, ho, sub_zero,
    Finset.sum_const, Finset.card_univ, Fintype.card_fin, nsmul_eq_mul]

theorem radiusSq_pos (points : List (Point2d K)) (h : (AtA points).det ≠ 0) :
    0 < solveX points 2 0 + solveX points 0 0 ^ 2 + solveX points 1 0 ^ 2 := by
  have hs := sum_sq_dist points h
  have hnn : ∀ i ∈ (Finset.univ : Finset (Fin points.length)),
      0 ≤ ((points.get i).x - solveX points 0 0) ^ 2
        + ((points.get i).y - solveX points 1 0) ^ 2 :=
    fun i _ => add_nonneg (sq_nonneg _) (sq_nonneg _)
  have hpos : 0 < ∑ i : Fin points.length,
      (((points.get i).x - solveX points 0 0) ^ 2
        + ((points.get i).y - solveX points 1 0) ^ 2) := by
    refine lt_of_le_of_ne (Finset.sum_nonneg hnn) (fun h0 => h ?_)
    have hz := (Finset.sum_eq_zero_iff_of_nonneg hnn).1 h0.symm
    apply det_AtA_eq_zero_of_collinear
    refine ⟨1, 0, -solveX points 0 0, Or.inl one_ne_zero, ?_⟩
    intro p hp
    obtain ⟨i, rfl⟩ := List.mem_iff_get.1 hp
    have hi := hz i (Finset.mem_univ i)
    have hx : ((points.get i).x - solveX points 0 0) ^ 2 = 0 := by
      have h1 := sq_nonneg ((points.get i).x - solveX points 0 0)
      have h2 := sq_nonneg ((points.get i).y - solveX points 1 0)
      linarith
    have hx2 := pow_eq_zero_iff (two_ne_zero) |>.1 hx
    linear_combination hx2
  rw [hs] at hpos
  have hn : (0 : K) ≤ (points.length : K) := Nat.cast_nonneg _
  by_contra hneg
  push_neg at hneg
  nlinarith

theorem radiusSq_nonneg (points : List (Point2d K)) :
    0 ≤ solveX points 2 0 + solveX points 0 0 ^ 2 + solveX points 1 0 ^ 2 := by
  by_cases h : (AtA points).det = 0
  · simp [solveX_of_det_eq_zero points h]
  · exact (radiusSq_pos points h).le

theorem fit_of_det_eq_zero (sqrt : K → K) (h0 : sqrt 0 = 0) (points : List (Point2d K))
    (h : (AtA points).det = 0) : FitCircleLMS sqrt points = ({ x := 0, y := 0 }, 0) := by
  simp [FitCircleLMS, writeOut, solveX_of_det_eq_zero points h, h0]

theorem fit_of_det_ne_zero (sqrt : K → K) (points : List (Point2d K)) :
    FitCircleLMS sqrt points
      = ({ x := solveX points 0 0, y := solveX points 1 0 },
          sqrt (solveX points 2 0 + solveX points 0 0 ^ 2 + solveX points 1 0 ^ 2)) := by
  rw [FitCircleLMS, writeOut_of_nonneg _ _ (radiusSq_nonneg points)]

theorem collinear_of_length_le_two (points : List (Point2d K)) (h : points.length ≤ 2) :
    Collinear points := by
  match points, h with
  | [], _ => exact ⟨1, 0, 0, Or.inl one_ne_zero, by simp⟩
  | [p], _ => exact ⟨1, 0, -p.x, Or.inl one_ne_zero, by simp⟩
  | [p, q], _ =>
    by_cases hx : q.x - p.x = 0
    · refine ⟨1, 0, -p.x, Or.inl one_ne_zero, ?_⟩
      intro s hs
      simp only [List.mem_cons, List.mem_singleton, List.not_mem_nil, or_false] at hs
      rcases hs with rfl | rfl
      · ring
      · linear_combination hx
    · refine ⟨q.y - p.y, -(q.x - p.x), -((q.y - p.y) * p.x - (q.x - p.x) * p.y),
        Or.inr (neg_ne_zero.2 hx), ?_⟩
      intro s hs
      simp only [List.mem_cons, List.mem_singleton, List.not_mem_nil, or_false] at hs
      rcases hs with rfl | rfl <;> ring
  | _ :: _ :: _ :: _, h => simp at h

end RadiusSq

/-! ## Claims C1 to C5 -/

section ClaimsA
variable {K : Type} [LinearOrderedField K]

/-- C1. Exact recovery: when every point of the sequence lies on the circle of
center `(a, b)` and radius `R > 0`, and the sequence contains three pairwise
distinct points, the matrix `A.t()*A` is invertible and `FitCircleLMS` writes
center exactly `(a, b)` and radius exactly `R`. -/
theorem C1_exact_recovery (a b R : ℝ) (hR : 0 < R) (points : List (Point2d ℝ))
    (hon : ∀ p ∈ points, OnCircle a b R p)
    (h3 : ∃ p ∈ points, ∃ q ∈ points, ∃ r ∈ points, p ≠ q ∧ p ≠ r ∧ q ≠ r) :
    (AtA points).det ≠ 0 ∧ FitCircleLMS Real.sqrt points = ({ x := a, y := b }, R) := by
  refine ⟨?_, fit_of_circle a b R hR points hon h3⟩
  obtain ⟨p, hp, q, hq, r, hr, hpq, hpr, hqr⟩ := h3
  exact det_AtA_ne_zero_of_circle a b R points hon p q r hp hq hr hpq hpr hqr

/-- Witness of C1: four points of the circle of center `(2, 3)` and radius `3`. -/
theorem C1_exact_recovery_witness :
    (AtA [({ x := 5, y := 3 } : Point2d ℝ), { x := 2, y := 6 }, { x := -1, y := 3 },
        { x := 2, y := 0 }]).det ≠ 0
      ∧ FitCircleLMS Real.sqrt
          [({ x := 5, y := 3 } : Point2d ℝ), { x := 2, y := 6 }, { x := -1, y := 3 },
            { x := 2, y := 0 }]
        = ({ x := 2, y := 3 }, 3) :=
  C1_exact_recovery 2 3 3 (by norm_num) _
    (by
      intro p hp
      simp only [List.mem_cons, List.mem_singleton, List.not_mem_nil, or_false] at hp
      rcases hp with rfl | rfl | rfl | rfl <;> norm_num [OnCircle])
    ⟨{ x := 5, y := 3 }, by simp, { x := 2, y := 6 }, by simp, { x := -1, y := 3 }, by simp,
      by norm_num, by norm_num, by norm_num⟩

/-- C2. End-to-end self-test: for every center `(x0, y0)` and radius `> 0`,
`FitCircleLMS` on the `N = 360` points of `circlePoints` returns that center
and radius; and `main` (center `(500, 500)`, radius `300`) ends with center
`(500, 500)` and radius `300`. -/
theorem C2_self_test (x0 y0 radius : ℝ) (h : 0 < radius) :
    FitCircleLMS Real.sqrt (circlePoints Real.cos Real.sin x0 y0 radius)
        = ({ x := x0, y := y0 }, radius)
      ∧ main Real.sqrt Real.cos Real.sin = ({ x := 500, y := 500 }, 300) :=
  ⟨fit_circlePoints x0 y0 radius h, fit_circlePoints 500 500 300 (by norm_num)⟩

/-- Witness of C2: center `(1, 2)` and radius `3`. -/
theorem C2_self_test_witness :
    (0 : ℝ) < 3
      ∧ FitCircleLMS Real.sqrt (circlePoints Real.cos Real.sin 1 2 3)
        = ({ x := 1, y := 2 }, (3 : ℝ)) :=
  ⟨by norm_num, (C2_self_test 1 2 3 (by norm_num)).1⟩

/-- C3, amended. Least-squares optimality in exact arithmetic (every ordered
field, so the reals): when `A.t()*A` is invertible, the solved vector `X` has a
residual `||A X - Y||^2` no larger than that of any other vector `X2`, and an
equal residual only for `X2 = X`. -/
theorem C3_least_squares (points : List (Point2d K)) (h : (AtA points).det ≠ 0)
    (X2 : Matrix (Fin 3) (Fin 1) K) :
    sqNorm (matA points * solveX points - matY points)
        ≤ sqNorm (matA points * X2 - matY points)
      ∧ (sqNorm (matA points * X2 - matY points)
            = sqNorm (matA points * solveX points - matY points)
          → X2 = solveX points) := by
  have e := sqNorm_residual points h X2
  refine ⟨by rw [e]; linarith [sqNorm_nonneg (matA points * (X2 - solveX points))], ?_⟩
  intro heq
  have hz : sqNorm (matA points * (X2 - solveX points)) = 0 := by linarith
  have hA := sqNorm_eq_zero _ hz
  have hD : X2 - solveX points = 0 := by
    have : AtA points * (X2 - solveX points) = 0 := by
      rw [AtA, Matrix.mul_assoc, hA, Matrix.mul_zero]
    calc X2 - solveX points
        = inv (AtA points) * AtA points * (X2 - solveX points) := by
          rw [inv_mul_of_det_ne_zero _ h, Matrix.one_mul]
      _ = 0 := by rw [Matrix.mul_assoc, this, Matrix.mul_zero]
  exact sub_eq_zero.1 hD

/-- Witness of C3 (amended): four points that are on no common circle, compared with
the vector `[1; 1; 1]`. -/
theorem C3_least_squares_witness :
    (AtA [({ x := 0, y := 0 } : Point2d ℚ), { x := 1, y := 0 }, { x := 0, y := 1 },
        { x := 1, y := 2 }]).det ≠ 0
      ∧ sqNorm (matA [({ x := 0, y := 0 } : Point2d ℚ), { x := 1, y := 0 }, { x := 0, y := 1 },
              { x := 1, y := 2 }]
            * solveX [({ x := 0, y := 0 } : Point2d ℚ), { x := 1, y := 0 }, { x := 0, y := 1 },
                { x := 1, y := 2 }]
            - matY [({ x := 0, y := 0 } : Point2d ℚ), { x := 1, y := 0 }, { x := 0, y := 1 },
                { x := 1, y := 2 }])
          ≤ sqNorm (matA [({ x := 0, y := 0 } : Point2d ℚ), { x := 1, y := 0 },
                { x := 0, y := 1 }, { x := 1, y := 2 }]
                * (!![1; 1; 1] : Matrix (Fin 3) (Fin 1) ℚ)
              - matY [({ x := 0, y := 0 } : Point2d ℚ), { x := 1, y := 0 }, { x := 0, y := 1 },
                  { x := 1, y := 2 }]) :=
  have hd : (AtA [({ x := 0, y := 0 } : Point2d ℚ), { x := 1, y := 0 }, { x := 0, y := 1 },
      { x := 1, y := 2 }]).det ≠ 0 :=
    det_AtA_ne_zero_of_triple _
      ⟨{ x := 0, y := 0 }, by simp, { x := 1, y := 0 }, by simp, { x := 0, y := 1 }, by simp,
        by norm_num [cross]⟩
  ⟨hd, (C3_least_squares _ hd (!![1; 1; 1] : Matrix (Fin 3) (Fin 1) ℚ)).1⟩

/-- C5. Order invariance: `FitCircleLMS` writes the same center and radius
for a sequence and for every permutation of it (over every ordered field, so
over the reals, and whatever `sqrt` is). -/
theorem C5_order_invariance (sqrt : K → K) (l₁ l₂ : List (Point2d K)) (h : l₁.Perm l₂) :
    FitCircleLMS sqrt l₁ = FitCircleLMS sqrt l₂ := by
  rw [FitCircleLMS, FitCircleLMS, solveX_perm l₁ l₂ h]

/-- Witness of C5: the first two of three points exchanged. -/
theorem C5_order_invariance_witness :
    [({ x := 0, y := 0 } : Point2d ℝ), { x := 1, y := 0 }, { x := 0, y := 1 }].Perm
        [{ x := 1, y := 0 }, { x := 0, y := 0 }, { x := 0, y := 1 }]
      ∧ FitCircleLMS Real.sqrt
          [({ x := 0, y := 0 } : Point2d ℝ), { x := 1, y := 0 }, { x := 0, y := 1 }]
        = FitCircleLMS Real.sqrt
            [{ x := 1, y := 0 }, { x := 0, y := 0 }, { x := 0, y := 1 }] :=
  ⟨List.Perm.swap _ _ _, C5_order_invariance Real.sqrt _ _ (List.Perm.swap _ _ _)⟩

end ClaimsA

/-! ## Claims C6 to C10 -/

section ClaimsB
variable {K : Type} [LinearOrderedField K]

/-- C6, amended. Collinear degeneracy in exact real arithmetic: when all points
lie on one line, or all points are one and the same point, `FitCircleLMS`
writes the zero-radius sentinel, center `(0, 0)` and radius `0` (real numbers,
so neither NaN nor infinite), the inverse of the singular `A.t()*A` being the
zero matrix. -/
theorem C6_collinear_sentinel (points : List (Point2d ℝ))
    (h : Collinear points ∨ ∃ p, ∀ q ∈ points, q = p) :
    FitCircleLMS Real.sqrt points = ({ x := 0, y := 0 }, 0) := by
  apply fit_of_det_eq_zero Real.sqrt Real.sqrt_zero
  apply det_AtA_eq_zero_of_collinear
  rcases h with h | ⟨p, hp⟩
  · exact h
  · refine ⟨1, 0, -p.x, Or.inl one_ne_zero, ?_⟩
    intro q hq
    rw [hp q hq]
    ring

/-- Witness of C6 (amended): three points of the line `x - y = 0`. -/
theorem C6_collinear_sentinel_witness :
    Collinear [({ x := 0, y := 0 } : Point2d ℝ), { x := 1, y := 1 }, { x := 2, y := 2 }]
      ∧ FitCircleLMS Real.sqrt
          [({ x := 0, y := 0 } : Point2d ℝ), { x := 1, y := 1 }, { x := 2, y := 2 }]
        = ({ x := 0, y := 0 }, 0) :=
  have hc : Collinear
      [({ x := 0, y := 0 } : Point2d ℝ), { x := 1, y := 1 }, { x := 2, y := 2 }] :=
    ⟨1, -1, 0, Or.inl one_ne_zero, by
      intro p hp
      simp only [List.mem_cons, List.mem_singleton, List.not_mem_nil, or_false] at hp
      rcases hp with rfl | rfl | rfl <;> norm_num⟩
  ⟨hc, C6_collinear_sentinel _ (Or.inl hc)⟩

/-- C7 as stated fails: on the one-point sequence `[(1, 2)]` the outcome is
not `InsufficientPoints`; the call writes center `(0, 0)` and radius `0`. -/
theorem C7_counterexample :
    [({ x := 1, y := 2 } : Point2d ℝ)].length ≤ 2
      ∧ fit_circle Real.sqrt [({ x := 1, y := 2 } : Point2d ℝ)]
          = Except.ok ({ x := 0, y := 0 }, 0)
      ∧ fit_circle Real.sqrt [({ x := 1, y := 2 } : Point2d ℝ)]
          ≠ Except.error FitError.InsufficientPoints := by
  have e : fit_circle Real.sqrt [({ x := 1, y := 2 } : Point2d ℝ)]
      = Except.ok ({ x := 0, y := 0 }, 0) := by
    unfold fit_circle
    rw [fit_of_det_eq_zero Real.sqrt Real.sqrt_zero _
      (det_AtA_eq_zero_of_collinear _ (collinear_of_length_le_two _ (by simp)))]
  refine ⟨by simp, e, ?_⟩
  rw [e]
  intro h
  cases h

/-- In exact real arithmetic, the inverse of a singular `A.t()*A` being the
zero matrix, a point sequence of length 0, 1 or 2 gets center `(0, 0)` and
radius `0`. -/
theorem short_input_sentinel_exact (points : List (Point2d ℝ)) (h : points.length ≤ 2) :
    FitCircleLMS Real.sqrt points = ({ x := 0, y := 0 }, 0)
      ∧ fit_circle Real.sqrt points = Except.ok ({ x := 0, y := 0 }, 0) := by
  have e := fit_of_det_eq_zero Real.sqrt Real.sqrt_zero points
    (det_AtA_eq_zero_of_collinear _ (collinear_of_length_le_two points h))
  exact ⟨e, by rw [fit_circle, e]⟩

/-- C7, amended. For every point sequence of length 0, 1 or 2, `FitCircleLMS`
does not fail with `InsufficientPoints`: it has no failure outcome, and returns
after writing a center and a radius (those of lines 78-93), as for every other
input. -/
theorem C7_short_input_no_failure (sqrt : K → K) (points : List (Point2d K))
    (_h : points.length ≤ 2) :
    fit_circle sqrt points = Except.ok (FitCircleLMS sqrt points)
      ∧ fit_circle sqrt points ≠ Except.error FitError.InsufficientPoints := by
  refine ⟨rfl, ?_⟩
  intro he
  cases he

/-- Witness of C7 (amended): the two points `(1, 2)` and `(3, 4)`. -/
theorem C7_short_input_no_failure_witness :
    [({ x := 1, y := 2 } : Point2d ℝ), { x := 3, y := 4 }].length ≤ 2
      ∧ fit_circle Real.sqrt [({ x := 1, y := 2 } : Point2d ℝ), { x := 3, y := 4 }]
        ≠ Except.error FitError.InsufficientPoints :=
  ⟨by simp, (C7_short_input_no_failure Real.sqrt _ (by simp)).2⟩

/-- C8 as stated fails: on the collinear sequence `[(0, 0), (1, 1), (2, 2)]`
the matrix `A.t()*A` is singular and the outcome is not `DegenerateFit`;
the call writes center `(0, 0)` and radius `0`. -/
theorem C8_counterexample :
    (AtA [({ x := 0, y := 0 } : Point2d ℝ), { x := 1, y := 1 }, { x := 2, y := 2 }]).det = 0
      ∧ fit_circle Real.sqrt
          [({ x := 0, y := 0 } : Point2d ℝ), { x := 1, y := 1 }, { x := 2, y := 2 }]
        = Except.ok ({ x := 0, y := 0 }, 0)
      ∧ fit_circle Real.sqrt
          [({ x := 0, y := 0 } : Point2d ℝ), { x := 1, y := 1 }, { x := 2, y := 2 }]
        ≠ Except.error FitError.DegenerateFit := by
  have hd : (AtA
      [({ x := 0, y := 0 } : Point2d ℝ), { x := 1, y := 1 }, { x := 2, y := 2 }]).det = 0 := by
    apply det_AtA_eq_zero_of_collinear
    refine ⟨1, -1, 0, Or.inl one_ne_zero, ?_⟩
    intro p hp
    simp only [List.mem_cons, List.mem_singleton, List.not_mem_nil, or_false] at hp
    rcases hp with rfl | rfl | rfl <;> norm_num
  have e : fit_circle Real.sqrt
      [({ x := 0, y := 0 } : Point2d ℝ), { x := 1, y := 1 }, { x := 2, y := 2 }]
        = Except.ok ({ x := 0, y := 0 }, 0) := by
    unfold fit_circle
    rw [fit_of_det_eq_zero Real.sqrt Real.sqrt_zero _ hd]
  refine ⟨hd, e, ?_⟩
  rw [e]
  intro h
  cases h

/-- In exact real arithmetic, the inverse of a singular `A.t()*A` being the
zero matrix, a point sequence whose `A.t()*A` is singular gets center `(0, 0)`
and radius `0`, and this pair is written for no sequence whose `A.t()*A` is
invertible. -/
theorem singular_sentinel_exact (points : List (Point2d ℝ)) (h : (AtA points).det = 0) :
    FitCircleLMS Real.sqrt points = ({ x := 0, y := 0 }, 0)
      ∧ ∀ points2 : List (Point2d ℝ), (AtA points2).det ≠ 0 →
          FitCircleLMS Real.sqrt points2 ≠ ({ x := 0, y := 0 }, 0) := by
  refine ⟨fit_of_det_eq_zero Real.sqrt Real.sqrt_zero points h, ?_⟩
  intro points2 h2 he
  rw [fit_of_det_ne_zero] at he
  have hr := congrArg Prod.snd he
  simp only at hr
  exact (Real.sqrt_pos.2 (radiusSq_pos points2 h2)).ne.symm hr

/-- C8, amended. For every point sequence whose matrix `A.t()*A` is singular,
`FitCircleLMS` signals no `DegenerateFit` failure: it has no failure outcome,
and returns after writing a center and a radius (those of lines 78-93), as for
every other input. -/
theorem C8_singular_no_failure (sqrt : K → K) (points : List (Point2d K))
    (_h : (AtA points).det = 0) :
    fit_circle sqrt points = Except.ok (FitCircleLMS sqrt points)
      ∧ fit_circle sqrt points ≠ Except.error FitError.DegenerateFit := by
  refine ⟨rfl, ?_⟩
  intro he
  cases he

/-- Witness of C8 (amended): three times the point `(3, 3)`. -/
theorem C8_singular_no_failure_witness :
    (AtA [({ x := 3, y := 3 } : Point2d ℝ), { x := 3, y := 3 }, { x := 3, y := 3 }]).det = 0
      ∧ fit_circle Real.sqrt
          [({ x := 3, y := 3 } : Point2d ℝ), { x := 3, y := 3 }, { x := 3, y := 3 }]
        ≠ Except.error FitError.DegenerateFit :=
  have hd : (AtA
      [({ x := 3, y := 3 } : Point2d ℝ), { x := 3, y := 3 }, { x := 3, y := 3 }]).det = 0 := by
    apply det_AtA_eq_zero_of_collinear
    refine ⟨1, 0, -3, Or.inl one_ne_zero, ?_⟩
    intro p hp
    simp only [List.mem_cons, List.mem_singleton, List.not_mem_nil, or_false, or_self] at hp
    subst hp
    norm_num
  ⟨hd, (C8_singular_no_failure Real.sqrt _ hd).2⟩

/-- C9, amended. Sentinel means failure, in exact real arithmetic (the inverse
of a singular `A.t()*A` being the zero matrix): a sequence containing three
non-collinear points gets a strictly positive radius (so never the sentinel
center `(0, 0)`, radius `0`); conversely a written radius of `0` implies that
all input points lie on one line. -/
theorem C9_sentinel_means_failure (points : List (Point2d ℝ)) :
    (HasNonCollinearTriple points →
        0 < (FitCircleLMS Real.sqrt points).2
          ∧ FitCircleLMS Real.sqrt points ≠ ({ x := 0, y := 0 }, 0))
      ∧ ((FitCircleLMS Real.sqrt points).2 = 0 → Collinear points) := by
  have key : (AtA points).det ≠ 0 → 0 < (FitCircleLMS Real.sqrt points).2 := by
    intro hd
    rw [fit_of_det_ne_zero]
    exact Real.sqrt_pos.2 (radiusSq_pos points hd)
  constructor
  · intro h3
    have hpos := key (det_AtA_ne_zero_of_triple points h3)
    refine ⟨hpos, fun he => ?_⟩
    rw [he] at hpos
    exact lt_irrefl _ hpos
  · intro h0
    by_cases hd : (AtA points).det = 0
    · exact collinear_of_det_AtA_eq_zero points hd
    · exact absurd h0 (key hd).ne.symm

/-- Witness of C9 (amended): the triangle `(0, 0)`, `(1, 0)`, `(0, 1)` gets a positive
radius. -/
theorem C9_sentinel_means_failure_witness :
    HasNonCollinearTriple
        [({ x := 0, y := 0 } : Point2d ℝ), { x := 1, y := 0 }, { x := 0, y := 1 }]
      ∧ 0 < (FitCircleLMS Real.sqrt
          [({ x := 0, y := 0 } : Point2d ℝ), { x := 1, y := 0 }, { x := 0, y := 1 }]).2 :=
  have h3 : HasNonCollinearTriple
      [({ x := 0, y := 0 } : Point2d ℝ), { x := 1, y := 0 }, { x := 0, y := 1 }] :=
    ⟨{ x := 0, y := 0 }, by simp, { x := 1, y := 0 }, by simp, { x := 0, y := 1 }, by simp,
      by norm_num [cross]⟩
  ⟨h3, ((C9_sentinel_means_failure _).1 h3).1⟩

end ClaimsB

/-! ## Closed form, normal equations as sums, translations -/

section ClosedForm
variable {K : Type} [LinearOrderedField K]

theorem sum_map_one (l : List (Point2d K)) :
    (l.map fun _ => (1 : K)).sum = (l.length : K) := by
  induction l with
  | nil => simp
  | cons a t ih =>
    simp only [List.map_cons, List.sum_cons, List.length_cons, Nat.cast_add, Nat.cast_one, ih]
    ring

theorem sum_map_add_mul (l : List (Point2d K)) (c : K) (f g h : Point2d K → K)
    (hf : ∀ p, f p = g p + c * h p) :
    (l.map f).sum = (l.map g).sum + c * (l.map h).sum := by
  have e : f = fun p => g p + c * h p := funext hf
  rw [e, List.sum_map_add, List.sum_map_mul_left]

theorem normal_iff_sum (points : List (Point2d K)) (X : Matrix (Fin 3) (Fin 1) K) :
    AtA points * X = (matA points)ᵀ * matY points ↔
      ∀ j : Fin 3,
        (points.map fun p =>
          rowA p j * (2 * p.x * X 0 0 + 2 * p.y * X 1 0 + X 2 0 - (p.x ^ 2 + p.y ^ 2))).sum
          = 0 := by
  have key : ∀ j : Fin 3,
      ((matA points)ᵀ * (matA points * X - matY points)) j 0
        = (points.map fun p =>
            rowA p j * (2 * p.x * X 0 0 + 2 * p.y * X 1 0 + X 2 0 - (p.x ^ 2 + p.y ^ 2))).sum := by
    intro j
    rw [Matrix.mul_apply, ← Fin.sum_univ_get']
    simp only [Matrix.transpose_apply, Matrix.sub_apply, matA_mul_apply, matA_apply, matY,
      Matrix.of_apply, List.get_eq_getElem]
  have e : (matA points)ᵀ * (matA points * X - matY points)
      = AtA points * X - (matA points)ᵀ * matY points := by
    rw [Matrix.mul_sub, ← Matrix.mul_assoc, AtA]
  constructor
  · intro h j
    rw [← key j, e, h, sub_self]
    rfl
  · intro h
    apply sub_eq_zero.1
    rw [← e]
    ext j k
    have hk : k = 0 := Subsingleton.elim _ _
    subst hk
    rw [key j, h j]
    rfl

theorem cross_translate (dx dy : K) (p q r : Point2d K) :
    cross (shiftBy dx dy p) (shiftBy dx dy q) (shiftBy dx dy r) = cross p q r := by
  simp only [cross, shiftBy]
  ring

theorem triple_translate (dx dy : K) (points : List (Point2d K))
    (h : HasNonCollinearTriple points) :
    HasNonCollinearTriple (points.map (shiftBy dx dy)) := by
  obtain ⟨p, hp, q, hq, r, hr, hc⟩ := h
  exact ⟨_, List.mem_map_of_mem _ hp, _, List.mem_map_of_mem _ hq, _,
    List.mem_map_of_mem _ hr, by rw [cross_translate]; exact hc⟩

theorem solveX_translate (dx dy : K) (points : List (Point2d K))
    (h : HasNonCollinearTriple points) :
    solveX (points.map (shiftBy dx dy))
      = !![solveX points 0 0 + dx; solveX points 1 0 + dy;
          solveX points 2 0 + solveX points 0 0 ^ 2 + solveX points 1 0 ^ 2
            - (solveX points 0 0 + dx) ^ 2 - (solveX points 1 0 + dy) ^ 2] := by
  have hd := det_AtA_ne_zero_of_triple points h
  have hd2 := det_AtA_ne_zero_of_triple _ (triple_translate dx dy points h)
  have hn := (normal_iff_sum points (solveX points)).1 (normal_equations points hd)
  apply solveX_unique _ hd2
  rw [normal_iff_sum]
  intro j
  rw [List.map_map]
  have h2 := hn 2
  fin_cases j
  · have h0 := hn 0
    rw [sum_map_add_mul points (2 * dx) _
      (fun p => rowA p 0 * (2 * p.x * solveX points 0 0 + 2 * p.y * solveX points 1 0 + solveX points 2 0
            - (p.x ^ 2 + p.y ^ 2)))
      (fun p => rowA p 2 * (2 * p.x * solveX points 0 0 + 2 * p.y * solveX points 1 0 + solveX points 2 0
            - (p.x ^ 2 + p.y ^ 2)))
      (fun p => ?_), h0, h2]
    · ring
    · simp [rowA, shiftBy]
      ring
  · have h1 := hn 1
    rw [sum_map_add_mul points (2 * dy) _
      (fun p => rowA p 1 * (2 * p.x * solveX points 0 0 + 2 * p.y * solveX points 1 0 + solveX points 2 0
            - (p.x ^ 2 + p.y ^ 2)))
      (fun p => rowA p 2 * (2 * p.x * solveX points 0 0 + 2 * p.y * solveX points 1 0 + solveX points 2 0
            - (p.x ^ 2 + p.y ^ 2)))
      (fun p => ?_), h1, h2]
    · ring
    · simp [rowA, shiftBy]
      ring
  · rw [sum_map_add_mul points (0) _
      (fun p => rowA p 2 * (2 * p.x * solveX points 0 0 + 2 * p.y * solveX points 1 0 + solveX points 2 0
            - (p.x ^ 2 + p.y ^ 2)))
      (fun p => rowA p 2 * (2 * p.x * solveX points 0 0 + 2 * p.y * solveX points 1 0 + solveX points 2 0
            - (p.x ^ 2 + p.y ^ 2)))
      (fun p => ?_), h2]
    · ring
    · simp [rowA, shiftBy]
      ring

theorem collinear_of_no_triple (points : List (Point2d K))
    (h : ¬ HasNonCollinearTriple points) : Collinear points := by
  have hz : ∀ p ∈ points, ∀ q ∈ points, ∀ r ∈ points, cross p q r = 0 := by
    intro p hp q hq r hr
    by_contra hc
    exact h ⟨p, hp, q, hq, r, hr, hc⟩
  by_cases hpq : ∃ p ∈ points, ∃ q ∈ points, p ≠ q
  · obtain ⟨p, hp, q, hq, hne⟩ := hpq
    refine ⟨q.y - p.y, -(q.x - p.x), -((q.y - p.y) * p.x - (q.x - p.x) * p.y), ?_, ?_⟩
    · by_contra hlm
      push_neg at hlm
      apply hne
      cases p; cases q
      simp only [Point2d.mk.injEq]
      simp only [neg_eq_zero] at hlm
      exact ⟨(sub_eq_zero.1 hlm.2).symm, (sub_eq_zero.1 hlm.1).symm⟩
    · intro r hr
      have := hz p hp q hq r hr
      unfold cross at this
      linear_combination -this
  · push_neg at hpq
    cases points with
    | nil => exact ⟨1, 0, 0, Or.inl one_ne_zero, by simp⟩
    | cons p t =>
      refine ⟨1, 0, -p.x, Or.inl one_ne_zero, ?_⟩
      intro q hq
      rw [← hpq p (List.mem_cons_self _ _) q hq]
      ring

end ClosedForm

/-! ## Claims C11 to C14 -/

section ClaimsC
variable {K : Type} [LinearOrderedField K]

/-- C13, amended. Characterisation of degeneracy in exact arithmetic (every
ordered field, so the reals): `A.t()*A` is singular if and only if all points
lie on a common line; it is singular for fewer than 3 points and for
all-identical points, and invertible whenever (indeed exactly when) the
sequence contains three non-collinear points. -/
theorem C13_degeneracy (points : List (Point2d K)) :
    ((AtA points).det = 0 ↔ Collinear points)
      ∧ (points.length < 3 → (AtA points).det = 0)
      ∧ ((∃ p, ∀ q ∈ points, q = p) → (AtA points).det = 0)
      ∧ (HasNonCollinearTriple points → (AtA points).det ≠ 0)
      ∧ ((AtA points).det ≠ 0 → HasNonCollinearTriple points) := by
  refine ⟨⟨collinear_of_det_AtA_eq_zero points, det_AtA_eq_zero_of_collinear points⟩,
    ?_, ?_, det_AtA_ne_zero_of_triple points, ?_⟩
  · intro h
    exact det_AtA_eq_zero_of_collinear _
      (collinear_of_length_le_two points (Nat.lt_succ_iff.1 h))
  · rintro ⟨p, hp⟩
    apply det_AtA_eq_zero_of_collinear
    refine ⟨1, 0, -p.x, Or.inl one_ne_zero, ?_⟩
    intro q hq
    rw [hp q hq]
    ring
  · intro h
    by_contra h3
    exact h (det_AtA_eq_zero_of_collinear _ (collinear_of_no_triple points h3))

/-- Witness of C13 (amended): the triangle `(0, 0)`, `(1, 0)`, `(0, 1)` has an invertible
normal matrix. -/
theorem C13_degeneracy_witness :
    (AtA [({ x := 0, y := 0 } : Point2d ℚ), { x := 1, y := 0 }, { x := 0, y := 1 }]).det
      ≠ 0 :=
  (C13_degeneracy _).2.2.2.1
    ⟨{ x := 0, y := 0 }, by simp, { x := 1, y := 0 }, by simp, { x := 0, y := 1 }, by simp,
      by norm_num [cross]⟩

/-- C14. Generator correctness: `circlePoints` writes exactly `N = 360` points;
point `i` (for `i < 360`) sits at angle `i * (PI/16) / 360` with
`PI = 3.141592653`, satisfies `(x - x0)^2 + (y - y0)^2 = radius^2`, and its
angle lies in `[0, 2*pi/32)`: less than 1/32 of a full turn; point `0` is
`(x0 + radius, y0)`. -/
theorem C14_generator (x0 y0 radius : ℝ) (i : Nat) (hi : i < 360) :
    (circlePoints Real.cos Real.sin x0 y0 radius).length = 360
      ∧ (circlePoints Real.cos Real.sin x0 y0 radius)[i]?
        = some { x := x0 + Real.cos ((i : ℝ) * (PI / 16) / 360) * radius
                 y := y0 + Real.sin ((i : ℝ) * (PI / 16) / 360) * radius }
      ∧ (∀ p, (circlePoints Real.cos Real.sin x0 y0 radius)[i]? = some p →
          (p.x - x0) ^ 2 + (p.y - y0) ^ 2 = radius ^ 2)
      ∧ 0 ≤ (i : ℝ) * (PI / 16) / 360
      ∧ (i : ℝ) * (PI / 16) / 360 < 2 * Real.pi / 32
      ∧ (circlePoints Real.cos Real.sin x0 y0 radius)[0]?
        = some { x := x0 + radius, y := y0 } := by
  have hlen : (circlePoints Real.cos Real.sin x0 y0 radius).length = 360 := by
    simp [circlePoints, N]
  have hget : ∀ k : Nat, k < 360 →
      (circlePoints Real.cos Real.sin x0 y0 radius)[k]?
        = some { x := x0 + Real.cos ((k : ℝ) * (PI / 16) / 360) * radius
                 y := y0 + Real.sin ((k : ℝ) * (PI / 16) / 360) * radius } := by
    intro k hk
    have e : PI / 16 / ((N : Nat) : ℝ) * (k : ℝ) = (k : ℝ) * (PI / 16) / 360 := by
      simp only [N]
      push_cast
      ring
    simp only [circlePoints, List.getElem?_map, List.getElem?_range (show k < N from hk),
      Option.map_some', e]
  have hi0 : (0 : ℝ) ≤ (i : ℝ) := Nat.cast_nonneg i
  have hi1 : (i : ℝ) < 360 := by exact_mod_cast hi
  have hPI : (0 : ℝ) < PI / 16 := by unfold PI; norm_num
  refine ⟨hlen, hget i hi, ?_, ?_, ?_, ?_⟩
  · intro p hp
    rw [hget i hi] at hp
    cases hp
    simp only [add_sub_cancel_left]
    have := Real.cos_sq_add_sin_sq ((i : ℝ) * (PI / 16) / 360)
    linear_combination radius ^ 2 * this
  · positivity
  · have h1 : (i : ℝ) * (PI / 16) / 360 < PI / 16 := by
      rw [div_lt_iff₀ (by norm_num : (0 : ℝ) < 360)]
      have := mul_lt_mul_of_pos_right hi1 hPI
      linarith
    have h2 : (PI : ℝ) / 16 < 2 * Real.pi / 32 := by
      have := Real.pi_gt_d20
      unfold PI
      norm_num at this ⊢
      linarith
    exact h1.trans h2
  · rw [hget 0 (by norm_num)]
    simp

/-- Witness of C14: the last point, `i = 359`, of the circle of center `(1, 2)`
and radius `3`. -/
theorem C14_generator_witness :
    359 < 360
      ∧ (circlePoints Real.cos Real.sin 1 2 3)[359]?
        = some { x := 1 + Real.cos (((359 : Nat) : ℝ) * (PI / 16) / 360) * 3
                 y := 2 + Real.sin (((359 : Nat) : ℝ) * (PI / 16) / 360) * 3 } :=
  ⟨by norm_num, (C14_generator 1 2 3 359 (by norm_num)).2.1⟩

end ClaimsC

/-! ## Claims C15 to C17 -/

section ClaimsD
variable {K : Type} [LinearOrderedField K]

/-- C15. Radius identity: for a sequence of length `n >= 1` with `A.t()*A`
invertible, `C + x0^2 + y0^2` equals `(1/n)` times the sum of the squared
distances from the points to `(x0, y0)`; so the square of the written radius
is the mean squared distance from the input points to the written center. -/
theorem C15_radius_identity (points : List (Point2d ℝ)) (hn : 1 ≤ points.length)
    (h : (AtA points).det ≠ 0) :
    solveX points 2 0 + solveX points 0 0 ^ 2 + solveX points 1 0 ^ 2
        = 1 / (points.length : ℝ)
          * (points.map fun p =>
              (p.x - solveX points 0 0) ^ 2 + (p.y - solveX points 1 0) ^ 2).sum
      ∧ (FitCircleLMS Real.sqrt points).2 ^ 2
        = 1 / (points.length : ℝ)
          * (points.map fun p =>
              (p.x - (FitCircleLMS Real.sqrt points).1.x) ^ 2
                + (p.y - (FitCircleLMS Real.sqrt points).1.y) ^ 2).sum := by
  have hs := sum_sq_dist points h
  have hl : (points.map fun p =>
      (p.x - solveX points 0 0) ^ 2 + (p.y - solveX points 1 0) ^ 2).sum
        = (points.length : ℝ)
          * (solveX points 2 0 + solveX points 0 0 ^ 2 + solveX points 1 0 ^ 2) := by
    rw [← hs, ← Fin.sum_univ_get']
    simp only [List.get_eq_getElem]
  have hn0 : (points.length : ℝ) ≠ 0 := by
    have : (1 : ℝ) ≤ (points.length : ℝ) := by exact_mod_cast hn
    linarith
  have e1 : solveX points 2 0 + solveX points 0 0 ^ 2 + solveX points 1 0 ^ 2
      = 1 / (points.length : ℝ)
        * (points.map fun p =>
            (p.x - solveX points 0 0) ^ 2 + (p.y - solveX points 1 0) ^ 2).sum := by
    rw [hl]
    field_simp
  refine ⟨e1, ?_⟩
  rw [fit_of_det_ne_zero]
  simp only
  rw [Real.sq_sqrt (radiusSq_nonneg points)]
  exact e1

/-- Witness of C15: the four points `(0, 0)`, `(1, 0)`, `(0, 1)`, `(1, 2)`. -/
theorem C15_radius_identity_witness :
    (AtA [({ x := 0, y := 0 } : Point2d ℝ), { x := 1, y := 0 }, { x := 0, y := 1 },
        { x := 1, y := 2 }]).det ≠ 0
      ∧ (FitCircleLMS Real.sqrt
          [({ x := 0, y := 0 } : Point2d ℝ), { x := 1, y := 0 }, { x := 0, y := 1 },
            { x := 1, y := 2 }]).2 ^ 2
        = 1 / (([({ x := 0, y := 0 } : Point2d ℝ), { x := 1, y := 0 }, { x := 0, y := 1 },
              { x := 1, y := 2 }].length : Nat) : ℝ)
          * ([({ x := 0, y := 0 } : Point2d ℝ), { x := 1, y := 0 }, { x := 0, y := 1 },
              { x := 1, y := 2 }].map fun p =>
              (p.x - (FitCircleLMS Real.sqrt
                  [({ x := 0, y := 0 } : Point2d ℝ), { x := 1, y := 0 }, { x := 0, y := 1 },
                    { x := 1, y := 2 }]).1.x) ^ 2
                + (p.y - (FitCircleLMS Real.sqrt
                  [({ x := 0, y := 0 } : Point2d ℝ), { x := 1, y := 0 }, { x := 0, y := 1 },
                    { x := 1, y := 2 }]).1.y) ^ 2).sum :=
  have hd : (AtA [({ x := 0, y := 0 } : Point2d ℝ), { x := 1, y := 0 }, { x := 0, y := 1 },
      { x := 1, y := 2 }]).det ≠ 0 :=
    det_AtA_ne_zero_of_triple _
      ⟨{ x := 0, y := 0 }, by simp, { x := 1, y := 0 }, by simp, { x := 0, y := 1 }, by simp,
        by norm_num [cross]⟩
  ⟨hd, (C15_radius_identity _ (by simp) hd).2⟩

/-- C16. The fallback branch is dead in exact arithmetic: for every point
sequence (the inverse of a singular `A.t()*A` being the zero matrix) the value
`C + x0^2 + y0^2` is `>= 0`, the test `*radiusOut < 0` fails, and the else
branch writes the center `(x0, y0)` and the radius `sqrt(C + x0^2 + y0^2)`. -/
theorem C16_fallback_dead (sqrt : K → K) (points : List (Point2d K)) :
    0 ≤ solveX points 2 0 + solveX points 0 0 ^ 2 + solveX points 1 0 ^ 2
      ∧ ¬ (solveX points 2 0 + solveX points 0 0 ^ 2 + solveX points 1 0 ^ 2 < 0)
      ∧ FitCircleLMS sqrt points
        = ({ x := solveX points 0 0, y := solveX points 1 0 },
            sqrt (solveX points 2 0 + solveX points 0 0 ^ 2 + solveX points 1 0 ^ 2)) :=
  ⟨radiusSq_nonneg points, not_lt.2 (radiusSq_nonneg points), fit_of_det_ne_zero sqrt points⟩

/-- C17. Translation equivariance: for a sequence containing three
non-collinear points and every offset `(dx, dy)`, fitting the shifted sequence
gives the original fitted center shifted by `(dx, dy)` and the same radius
(over every ordered field, so over the reals, and whatever `sqrt` is). -/
theorem C17_translation (sqrt : K → K) (points : List (Point2d K))
    (h : HasNonCollinearTriple points) (dx dy : K) :
    FitCircleLMS sqrt (points.map (shiftBy dx dy))
      = (shiftBy dx dy (FitCircleLMS sqrt points).1, (FitCircleLMS sqrt points).2) := by
  rw [fit_of_det_ne_zero sqrt points, fit_of_det_ne_zero sqrt (points.map (shiftBy dx dy)),
    solveX_translate dx dy points h]
  have e : (!![solveX points 0 0 + dx; solveX points 1 0 + dy;
        solveX points 2 0 + solveX points 0 0 ^ 2 + solveX points 1 0 ^ 2
          - (solveX points 0 0 + dx) ^ 2 - (solveX points 1 0 + dy) ^ 2] :
          Matrix (Fin 3) (Fin 1) K) 2 0
      + (!![solveX points 0 0 + dx; solveX points 1 0 + dy;
        solveX points 2 0 + solveX points 0 0 ^ 2 + solveX points 1 0 ^ 2
          - (solveX points 0 0 + dx) ^ 2 - (solveX points 1 0 + dy) ^ 2] :
          Matrix (Fin 3) (Fin 1) K) 0 0 ^ 2
      + (!![solveX points 0 0 + dx; solveX points 1 0 + dy;
        solveX points 2 0 + solveX points 0 0 ^ 2 + solveX points 1 0 ^ 2
          - (solveX points 0 0 + dx) ^ 2 - (solveX points 1 0 + dy) ^ 2] :
          Matrix (Fin 3) (Fin 1) K) 1 0 ^ 2
      = solveX points 2 0 + solveX points 0 0 ^ 2 + solveX points 1 0 ^ 2 := by
    simp
    ring
  rw [e]
  simp [shiftBy]

/-- Witness of C17: the triangle `(0, 0)`, `(1, 0)`, `(0, 1)` shifted by
`(3, -2)`. -/
theorem C17_translation_witness :
    HasNonCollinearTriple
        [({ x := 0, y := 0 } : Point2d ℝ), { x := 1, y := 0 }, { x := 0, y := 1 }]
      ∧ FitCircleLMS Real.sqrt
          ([({ x := 0, y := 0 } : Point2d ℝ), { x := 1, y := 0 }, { x := 0, y := 1 }].map
            (shiftBy 3 (-2)))
        = (shiftBy 3 (-2) (FitCircleLMS Real.sqrt
              [({ x := 0, y := 0 } : Point2d ℝ), { x := 1, y := 0 }, { x := 0, y := 1 }]).1,
            (FitCircleLMS Real.sqrt
              [({ x := 0, y := 0 } : Point2d ℝ), { x := 1, y := 0 }, { x := 0, y := 1 }]).2) :=
  have h3 : HasNonCollinearTriple
      [({ x := 0, y := 0 } : Point2d ℝ), { x := 1, y := 0 }, { x := 0, y := 1 }] :=
    ⟨{ x := 0, y := 0 }, by simp, { x := 1, y := 0 }, by simp, { x := 0, y := 1 }, by simp,
      by norm_num [cross]⟩
  ⟨h3, C17_translation Real.sqrt _ h3 3 (-2)⟩

end ClaimsD

/-! ## Facts about the program in `double` arithmetic -/

section DoubleFacts
variable {K : Type} [LinearOrderedField K]

theorem sqNorm_residual_sum (points : List (Point2d K)) (X : Matrix (Fin 3) (Fin 1) K) :
    sqNorm (matA points * X - matY points)
      = (points.map fun p =>
          (2 * p.x * X 0 0 + 2 * p.y * X 1 0 + X 2 0 - (p.x ^ 2 + p.y ^ 2)) ^ 2).sum := by
  rw [← Fin.sum_univ_get']
  simp only [sqNorm, Matrix.sub_apply, matA_mul_apply, matY, Matrix.of_apply,
    List.get_eq_getElem]

theorem not_collinear_of_triple (points : List (Point2d K))
    (h : HasNonCollinearTriple points) : ¬ Collinear points :=
  fun hc => det_AtA_ne_zero_of_triple points h (det_AtA_eq_zero_of_collinear points hc)

end DoubleFacts

/-! ## Inputs on which `double` arithmetic departs from exact arithmetic -/

section DoubleCounterexamples

set_option maxRecDepth 100000

/-- C3 as stated fails on the code: on the three points `(82673, 82673)`,
`(82671, 82671)`, `(82674, 82675)` the matrix `A.t()*A` is invertible (the
exact one, and `det3 != 0.` on the matrix of `double`), the code computes
`X = [82666.5; 82677.5; -173255278345270.5]`, and the residual
`||A X - Y||^2` of this vector is larger than that of the zero vector. -/
theorem C3_counterexample :
    [({ x := Double.ofInt 82673, y := Double.ofInt 82673 } : Point2d Double),
        { x := Double.ofInt 82671, y := Double.ofInt 82671 },
        { x := Double.ofInt 82674, y := Double.ofInt 82675 }].map toRatPoint
      = [{ x := 82673, y := 82673 }, { x := 82671, y := 82671 }, { x := 82674, y := 82675 }]
    ∧ (AtA [({ x := 82673, y := 82673 } : Point2d ℚ), { x := 82671, y := 82671 },
        { x := 82674, y := 82675 }]).det ≠ 0
    ∧ Double.neZero (det3 (AtA_d
        [{ x := Double.ofInt 82673, y := Double.ofInt 82673 },
          { x := Double.ofInt 82671, y := Double.ofInt 82671 },
          { x := Double.ofInt 82674, y := Double.ofInt 82675 }])) = true
    ∧ solveX_d
        [{ x := Double.ofInt 82673, y := Double.ofInt 82673 },
          { x := Double.ofInt 82671, y := Double.ofInt 82671 },
          { x := Double.ofInt 82674, y := Double.ofInt 82675 }]
      = [[Double.fin 5680798623596544 (-36)], [Double.fin 5681554537840640 (-36)],
          [Double.fin (-5544168907048656) (-5)]]
    ∧ (!![Double.toRat (Double.fin 5680798623596544 (-36));
          Double.toRat (Double.fin 5681554537840640 (-36));
          Double.toRat (Double.fin (-5544168907048656) (-5))] : Matrix (Fin 3) (Fin 1) ℚ)
      = !![165333 / 2; 165355 / 2; -346510556690541 / 2]
    ∧ sqNorm (matA [({ x := 82673, y := 82673 } : Point2d ℚ), { x := 82671, y := 82671 },
            { x := 82674, y := 82675 }] * (0 : Matrix (Fin 3) (Fin 1) ℚ)
          - matY [({ x := 82673, y := 82673 } : Point2d ℚ), { x := 82671, y := 82671 },
            { x := 82674, y := 82675 }])
      < sqNorm (matA [({ x := 82673, y := 82673 } : Point2d ℚ), { x := 82671, y := 82671 },
            { x := 82674, y := 82675 }]
            * (!![165333 / 2; 165355 / 2; -346510556690541 / 2] : Matrix (Fin 3) (Fin 1) ℚ)
          - matY [({ x := 82673, y := 82673 } : Point2d ℚ), { x := 82671, y := 82671 },
            { x := 82674, y := 82675 }]) := by
  have e1 : Double.ofInt 82673 = Double.fin 5681245300195328 (-36) := by decide!
  have e2 : Double.ofInt 82671 = Double.fin 5681107861241856 (-36) := by decide!
  have e3 : Double.ofInt 82674 = Double.fin 5681314019672064 (-36) := by decide!
  have e4 : Double.ofInt 82675 = Double.fin 5681382739148800 (-36) := by decide!
  refine ⟨?_, ?_, by decide!, by decide!, ?_, ?_⟩
  · rw [e1, e2, e3, e4]
    norm_num [toRatPoint, Double.toRat]
  · exact det_AtA_ne_zero_of_triple _
      ⟨{ x := 82673, y := 82673 }, by simp, { x := 82671, y := 82671 }, by simp,
        { x := 82674, y := 82675 }, by simp, by norm_num [cross]⟩
  · norm_num [Double.toRat]
  · rw [sqNorm_residual_sum, sqNorm_residual_sum]
    norm_num

/-- C6 as stated fails on the code.  Three times the point `(0.1, 0.7)`:
`det3` is `-2^-103`, not `0`, and the code writes center
`(0, -1351079888211148.75)` and radius `1351079888211149`.  The collinear
integer points `(300000, 300001)`, `(300001, 300002)`, `(300002, 300003)` get a
center and a radius that are not `0`.  The collinear points `(1e200, 1e200)`,
`(2e200, 2e200)`, `(3e200, 3e200)` get NaN. -/
theorem C6_counterexample :
    (FitCircleLMS_d
        [{ x := Double.fin 7205759403792794 (-56), y := Double.fin 6305039478318694 (-53) },
          { x := Double.fin 7205759403792794 (-56), y := Double.fin 6305039478318694 (-53) },
          { x := Double.fin 7205759403792794 (-56), y := Double.fin 6305039478318694 (-53) }]
      = ({ x := Double.zero, y := Double.fin (-5404319552844595) (-2) },
          Double.fin 5404319552844596 (-2)))
    ∧ ([({ x := Double.ofInt 300000, y := Double.ofInt 300001 } : Point2d Double),
          { x := Double.ofInt 300001, y := Double.ofInt 300002 },
          { x := Double.ofInt 300002, y := Double.ofInt 300003 }].map toRatPoint
        = [{ x := 300000, y := 300001 }, { x := 300001, y := 300002 },
            { x := 300002, y := 300003 }])
    ∧ Collinear [({ x := 300000, y := 300001 } : Point2d ℚ), { x := 300001, y := 300002 },
          { x := 300002, y := 300003 }]
    ∧ (FitCircleLMS_d
        [{ x := Double.ofInt 300000, y := Double.ofInt 300001 },
          { x := Double.ofInt 300001, y := Double.ofInt 300002 },
          { x := Double.ofInt 300002, y := Double.ofInt 300003 }]
      = ({ x := Double.fin 5153995115010929 (-34), y := Double.fin 4757533952289466 (-36) },
          Double.fin 4831292928305708 (-33)))
    ∧ (FitCircleLMS_d
        [{ x := Double.ofInt (10 ^ 200), y := Double.ofInt (10 ^ 200) },
          { x := Double.ofInt (2 * 10 ^ 200), y := Double.ofInt (2 * 10 ^ 200) },
          { x := Double.ofInt (3 * 10 ^ 200), y := Double.ofInt (3 * 10 ^ 200) }]
      = ({ x := Double.nan, y := Double.nan }, Double.nan)) := by
  have e0 : Double.ofInt 300000 = Double.fin 5153960755200000 (-34) := by decide!
  have e1 : Double.ofInt 300001 = Double.fin 5153977935069184 (-34) := by decide!
  have e2 : Double.ofInt 300002 = Double.fin 5153995114938368 (-34) := by decide!
  have e3 : Double.ofInt 300003 = Double.fin 5154012294807552 (-34) := by decide!
  refine ⟨by decide!, ?_, ?_, by decide!, by decide!⟩
  · rw [e0, e1, e2, e3]
    norm_num [toRatPoint, Double.toRat]
  · refine ⟨1, -1, 1, Or.inl one_ne_zero, ?_⟩
    intro p hp
    simp only [List.mem_cons, List.mem_singleton, List.not_mem_nil, or_false] at hp
    rcases hp with rfl | rfl | rfl <;> norm_num

/-- C9 as stated fails on the code: the points `(82673, 82673)`,
`(82671, 82671)`, `(82674, 82675)` are not collinear (cross product `-2`), the
solved vector has `C + x0^2 + y0^2 < 0`, and the code writes the sentinel,
center `(0, 0)` and radius `0`: the radius is not strictly positive, and it is
`0` on points that are not collinear. -/
theorem C9_counterexample :
    [({ x := Double.ofInt 82673, y := Double.ofInt 82673 } : Point2d Double),
        { x := Double.ofInt 82671, y := Double.ofInt 82671 },
        { x := Double.ofInt 82674, y := Double.ofInt 82675 }].map toRatPoint
      = [{ x := 82673, y := 82673 }, { x := 82671, y := 82671 }, { x := 82674, y := 82675 }]
    ∧ HasNonCollinearTriple [({ x := 82673, y := 82673 } : Point2d ℚ),
        { x := 82671, y := 82671 }, { x := 82674, y := 82675 }]
    ∧ ¬ Collinear [({ x := 82673, y := 82673 } : Point2d ℚ),
        { x := 82671, y := 82671 }, { x := 82674, y := 82675 }]
    ∧ FitCircleLMS_d
        [{ x := Double.ofInt 82673, y := Double.ofInt 82673 },
          { x := Double.ofInt 82671, y := Double.ofInt 82671 },
          { x := Double.ofInt 82674, y := Double.ofInt 82675 }]
      = ({ x := Double.zero, y := Double.zero }, Double.zero)
    ∧ Double.lt Double.zero (FitCircleLMS_d
        [{ x := Double.ofInt 82673, y := Double.ofInt 82673 },
          { x := Double.ofInt 82671, y := Double.ofInt 82671 },
          { x := Double.ofInt 82674, y := Double.ofInt 82675 }]).2 = false := by
  have e1 : Double.ofInt 82673 = Double.fin 5681245300195328 (-36) := by decide!
  have e2 : Double.ofInt 82671 = Double.fin 5681107861241856 (-36) := by decide!
  have e3 : Double.ofInt 82674 = Double.fin 5681314019672064 (-36) := by decide!
  have e4 : Double.ofInt 82675 = Double.fin 5681382739148800 (-36) := by decide!
  have h3 : HasNonCollinearTriple [({ x := 82673, y := 82673 } : Point2d ℚ),
      { x := 82671, y := 82671 }, { x := 82674, y := 82675 }] :=
    ⟨{ x := 82673, y := 82673 }, by simp, { x := 82671, y := 82671 }, by simp,
      { x := 82674, y := 82675 }, by simp, by norm_num [cross]⟩
  refine ⟨?_, h3, not_collinear_of_triple _ h3, by decide!, by decide!⟩
  rw [e1, e2, e3, e4]
  norm_num [toRatPoint, Double.toRat]

/-- C13 as stated fails on the code: the points `(1e8, 1e8)`, `(1e8 + 1, 1e8)`,
`(1e8, 1e8 + 1)` are not collinear (cross product `1`), yet the matrix
`A.t()*A` that the code builds in `double` has two equal rows, its determinant
is `0` and `det3` is `0.`. -/
theorem C13_counterexample :
    [({ x := Double.ofInt 100000000, y := Double.ofInt 100000000 } : Point2d Double),
        { x := Double.ofInt 100000001, y := Double.ofInt 100000000 },
        { x := Double.ofInt 100000000, y := Double.ofInt 100000001 }].map toRatPoint
      = [{ x := 100000000, y := 100000000 }, { x := 100000001, y := 100000000 },
          { x := 100000000, y := 100000001 }]
    ∧ HasNonCollinearTriple [({ x := 100000000, y := 100000000 } : Point2d ℚ),
        { x := 100000001, y := 100000000 }, { x := 100000000, y := 100000001 }]
    ∧ ¬ Collinear [({ x := 100000000, y := 100000000 } : Point2d ℚ),
        { x := 100000001, y := 100000000 }, { x := 100000000, y := 100000001 }]
    ∧ AtA_d
        [{ x := Double.ofInt 100000000, y := Double.ofInt 100000000 },
          { x := Double.ofInt 100000001, y := Double.ofInt 100000000 },
          { x := Double.ofInt 100000000, y := Double.ofInt 100000001 }]
      = [[Double.ofInt 120000000800000000, Double.ofInt 120000000800000000,
            Double.ofInt 600000002],
          [Double.ofInt 120000000800000000, Double.ofInt 120000000800000000,
            Double.ofInt 600000002],
          [Double.ofInt 600000002, Double.ofInt 600000002, Double.ofInt 3]]
    ∧ (Double.toRat (Double.ofInt 120000000800000000) = 120000000800000000
        ∧ Double.toRat (Double.ofInt 600000002) = 600000002
        ∧ Double.toRat (Double.ofInt 3) = 3)
    ∧ (!![120000000800000000, 120000000800000000, 600000002;
          120000000800000000, 120000000800000000, 600000002;
          600000002, 600000002, 3] : Matrix (Fin 3) (Fin 3) ℚ).det = 0
    ∧ det3 (AtA_d
        [{ x := Double.ofInt 100000000, y := Double.ofInt 100000000 },
          { x := Double.ofInt 100000001, y := Double.ofInt 100000000 },
          { x := Double.ofInt 100000000, y := Double.ofInt 100000001 }]) = Double.zero := by
  have e1 : Double.ofInt 100000000 = Double.fin 6710886400000000 (-26) := by decide!
  have e2 : Double.ofInt 100000001 = Double.fin 6710886467108864 (-26) := by decide!
  have e3 : Double.ofInt 120000000800000000 = Double.fin 7500000050000000 4 := by decide!
  have e4 : Double.ofInt 600000002 = Double.fin 5033164816777216 (-23) := by decide!
  have e5 : Double.ofInt 3 = Double.fin 6755399441055744 (-51) := by decide!
  have h3 : HasNonCollinearTriple [({ x := 100000000, y := 100000000 } : Point2d ℚ),
      { x := 100000001, y := 100000000 }, { x := 100000000, y := 100000001 }] :=
    ⟨{ x := 100000000, y := 100000000 }, by simp, { x := 100000001, y := 100000000 }, by simp,
      { x := 100000000, y := 100000001 }, by simp, by norm_num [cross]⟩
  refine ⟨?_, h3, not_collinear_of_triple _ h3, by decide!, ⟨?_, ?_, ?_⟩, ?_, by decide!⟩
  · rw [e1, e2]
    norm_num [toRatPoint, Double.toRat]
  · rw [e3]; norm_num [Double.toRat]
  · rw [e4]; norm_num [Double.toRat]
  · rw [e5]; norm_num [Double.toRat]
  · rw [Matrix.det_fin_three]
    norm_num

end DoubleCounterexamples

/-! ## Claim C4, amended -/

section ClaimsE

end ClaimsE

end FitCircle
